import Mathlib

/-!
# Channels in C: a shallow embedding of `channel.c` and `linked_list.c`

The development has three layers.

* A call-level layer: every public operation (`channel_send`, `channel_receive`,
  `channel_close`, `channel_destroy`, `channel_select`) is a function from the
  state before the call to the state after it.  A call that would sleep in
  `sem_wait` on a semaphore whose value is 0 never completes when no other
  thread runs; it yields `Halt.waits`.  A call that would dereference a NULL
  node yields `Halt.fault`.
* A thread-level layer (`Thread`, `Config`, `thread_step`): the blocking
  forms of send and receive cut at their synchronisation points, so that two
  threads can interleave.
* A pointer-level layer for `linked_list.c` (namespace `Ptr`): nodes with
  `data`, `prev` and `next` in a memory.  The call-level layer uses the
  sequence of the `data` fields of a list instead (`list_t`); the theorems
  `list_insert_refines`, `list_remove_refines` and `Ptr.list_find_loop_spec`
  relate the two.

Pointers (`void*` payloads, `sem_t*` wake handles, `chan_t*`) are natural
numbers.  A semaphore is its value, which is at most `SEM_VALUE_MAX`
(2^31 - 1): `sem_init` fails above it and `sem_post` fails at it, and
`channel.c` ignores both failures.  `size_t` is 64 bits wide and
`unsigned int` 32 bits wide.
-/

namespace Chan

/-! ## Basic types -/

/-- A payload is a `void*`: an address the channel never dereferences. -/
abbrev Payload := Nat

/-- A wake handle is the `sem_t*` a select caller stores in a waiter list. -/
abbrev Handle := Nat

/-- A channel is named by its address (`chan_t*`). -/
abbrev ChanId := Nat

/-- The null pointer. -/
def NULL : Nat := 0

/-- Number of values of an `unsigned int`. -/
def UINT_RANGE : Nat := 2 ^ 32

/-- Number of values of a `size_t`. -/
def SIZE_RANGE : Nat := 2 ^ 64

/-- The statuses of `enum chan_status`, as the source names them. -/
inductive chan_status where
  | SUCCESS
  | WOULDBLOCK
  | CLOSED_ERROR
  | DESTROY_ERROR
  | OTHER_ERROR
  deriving DecidableEq

open chan_status

/-- Why a call does not return: it sleeps on a semaphore nobody posts
(`waits`), or it dereferences a NULL node (`fault`). -/
inductive Halt where
  | waits
  | fault
  deriving DecidableEq

/-! ## Counting semaphores -/

/-- The largest value of a semaphore, `SEM_VALUE_MAX` of `<limits.h>`:
2^31 - 1. -/
def SEM_VALUE_MAX : Nat := 2147483647

/-- The value of a semaphore whose `sem_init` has failed: the call leaves the
`sem_t` as the allocation delivered it, which is taken to be zero-filled
memory. -/
def SEM_UNSET : Nat := 0

/-- The call `sem_init(&s, 0, value)`; a semaphore (`sem_t`) is its value.  For
a value above `SEM_VALUE_MAX` the call fails with EINVAL and sets nothing;
`channel_create` ignores what the call returns. -/
def sem_init (value : Nat) : Nat :=
  if value ≤ SEM_VALUE_MAX then value else SEM_UNSET

/-- The call `sem_post`: one more unit.  At `SEM_VALUE_MAX` the call fails with
EOVERFLOW and leaves the value as it is; `channel.c` ignores what the call
returns.  A semaphore never holds more than `SEM_VALUE_MAX`. -/
def sem_post (s : Nat) : Nat :=
  if s = SEM_VALUE_MAX then s else s + 1

/-- The call `sem_wait`: takes one unit when there is one; `none` when the
value is 0 and the caller has to sleep. -/
def sem_wait (s : Nat) : Option Nat :=
  if 0 < s then some (s - 1) else none

/-- The call `sem_trywait`: takes one unit when there is one; `none` when the
value is 0 and the call returns -1 at once. -/
def sem_trywait (s : Nat) : Option Nat :=
  if 0 < s then some (s - 1) else none

/-! ## The bounded buffer (`buffer.c` is not part of the sources) -/

/-- Modelled from the spec: the type `buffer_t` of the absent `buffer.c`,
"a fixed-capacity FIFO of opaque payload references" (spec 2 and 4.1).
The field `data` lists the payloads held, oldest first. -/
structure buffer_t where
  capacity : Nat
  data : List Payload
  deriving DecidableEq

/-- Modelled from the spec: `buffer_create` of the absent `buffer.c`;
"create(n) yields a FIFO of capacity n (n may be 0)". -/
def buffer_create (capacity : Nat) : buffer_t :=
  { capacity := capacity, data := [] }

/-- Modelled from the spec: `buffer_add` of the absent `buffer.c`;
"add(p) appends; fails only if full".  A failed add leaves the buffer as it
is; `channel.c` ignores the status that `buffer_add` returns. -/
def buffer_add (data : Payload) (buffer : buffer_t) : buffer_t :=
  if buffer.data.length < buffer.capacity then
    { buffer with data := buffer.data ++ [data] }
  else buffer

/-- Modelled from the spec: `buffer_remove` of the absent `buffer.c`;
"remove() returns the oldest payload".  The spec does not say what a remove
from an empty buffer returns; here it returns NULL and leaves the buffer
empty. -/
def buffer_remove (buffer : buffer_t) : Payload × buffer_t :=
  match buffer.data with
  | [] => (NULL, buffer)
  | p :: rest => (p, { buffer with data := rest })

/-! ## The waiter list (`linked_list.c`), seen as the sequence of its nodes -/

/-- The list `list_t`: `head` is the sequence of the `data` fields of the nodes
reached from `list->head` along `next`; a node is named by its position in
that sequence.  `count` is the separate counter field. -/
structure list_t where
  head : List Handle
  count : Nat
  deriving DecidableEq

/-- The function `list_create`: no node, count 0. -/
def list_create : list_t :=
  { head := [], count := 0 }

/-- The loop of `list_find` over a chain of nodes: the position of the first
node whose data equals `data`, `none` for the NULL result. -/
def find_node : List Handle → Handle → Option Nat
  | [], _ => none
  | d :: rest, data =>
    if d = data then some 0 else (find_node rest data).map (fun i => i + 1)

/-- The function `list_find`. -/
def list_find (list : list_t) (data : Handle) : Option Nat :=
  find_node list.head data

/-- The function `list_insert`: the new node becomes the head; `count` is a
`size_t`. -/
def list_insert (list : list_t) (data : Handle) : list_t :=
  { head := data :: list.head, count := (list.count + 1) % SIZE_RANGE }

/-- The function `list_remove`: unlinks the node at the given position.  The
first statement after the count update reads `node->prev`, which faults for a
NULL node (`none`); a position outside the list stands for a pointer that is
not a node of this list and is a fault as well. -/
def list_remove (list : list_t) (node : Option Nat) : Except Halt list_t :=
  match node with
  | none => Except.error Halt.fault
  | some i =>
    if i < list.head.length then
      Except.ok { head := list.head.eraseIdx i,
                  count := (list.count + SIZE_RANGE - 1) % SIZE_RANGE }
    else Except.error Halt.fault

/-- The loop `p = list->head; while (p != NULL) { sem_post(p->data); p = p->next; }`
of `channel.c`: the handles posted, one per node, head first. -/
def signal_all (list : list_t) : List Handle :=
  list.head

/-! ## The channel -/

/-- The structure `chan_t`; `sender` and `receiver` are the values of the two
semaphores.  The two mutexes are not fields: in the call-level layer every
lock is released before the call returns and no call interleaves with
another. -/
structure chan_t where
  buffer : buffer_t
  closed : Bool
  sender : Nat
  receiver : Nat
  send_list : list_t
  receive_list : list_t
  deriving DecidableEq

/-- What a call on one channel leaves behind: its return status, the channel
after the call, the wake handles it posted (in order), and the payload it
stored through the `void** data` argument (`none` when it stored nothing). -/
structure chan_result where
  status : chan_status
  channel : chan_t
  signals : List Handle
  stored : Option Payload
  deriving DecidableEq

/-- The function `channel_create`.  The guard `size < 0` is never true for a
`size_t`.  The sender semaphore is initialised with `(unsigned int) size`; the
status of the two `sem_init` calls is not looked at. -/
def channel_create (size : Nat) : chan_t :=
  { buffer := buffer_create size
    closed := false
    sender := sem_init (size % UINT_RANGE)
    receiver := sem_init 0
    send_list := list_create
    receive_list := list_create }

/-- The function `channel_send`, both branches as in the source. -/
def channel_send (channel : chan_t) (data : Payload) (blocking : Bool) :
    Except Halt chan_result :=
  if blocking then
    match sem_wait channel.sender with
    | none => Except.error Halt.waits
    | some s =>
      if channel.closed then
        Except.ok { status := CLOSED_ERROR
                    channel := { channel with sender := sem_post s }
                    signals := []
                    stored := none }
      else
        Except.ok { status := SUCCESS
                    channel := { channel with
                                 sender := s
                                 buffer := buffer_add data channel.buffer
                                 receiver := sem_post channel.receiver }
                    signals := signal_all channel.receive_list
                    stored := none }
  else
    match sem_trywait channel.sender with
    | some s =>
      if channel.closed then
        Except.ok { status := CLOSED_ERROR
                    channel := { channel with sender := sem_post s }
                    signals := []
                    stored := none }
      else
        Except.ok { status := SUCCESS
                    channel := { channel with
                                 sender := s
                                 buffer := buffer_add data channel.buffer
                                 receiver := sem_post channel.receiver }
                    signals := signal_all channel.receive_list
                    stored := none }
    | none =>
      if channel.closed then
        Except.ok { status := CLOSED_ERROR, channel := channel, signals := [], stored := none }
      else
        Except.ok { status := WOULDBLOCK, channel := channel, signals := [], stored := none }

/-- The function `channel_receive`, both branches as in the source.  The
statement `return OTHER_ERROR` after the outer conditional is not reachable. -/
def channel_receive (channel : chan_t) (blocking : Bool) :
    Except Halt chan_result :=
  if blocking then
    match sem_wait channel.receiver with
    | none => Except.error Halt.waits
    | some s =>
      if channel.closed then
        Except.ok { status := CLOSED_ERROR
                    channel := { channel with receiver := sem_post s }
                    signals := []
                    stored := none }
      else
        Except.ok { status := SUCCESS
                    channel := { channel with
                                 receiver := s
                                 buffer := (buffer_remove channel.buffer).2
                                 sender := sem_post channel.sender }
                    signals := signal_all channel.send_list
                    stored := some (buffer_remove channel.buffer).1 }
  else
    match sem_trywait channel.receiver with
    | some s =>
      if channel.closed then
        Except.ok { status := CLOSED_ERROR
                    channel := { channel with receiver := sem_post s }
                    signals := []
                    stored := none }
      else
        Except.ok { status := SUCCESS
                    channel := { channel with
                                 receiver := s
                                 buffer := (buffer_remove channel.buffer).2
                                 sender := sem_post channel.sender }
                    signals := signal_all channel.send_list
                    stored := some (buffer_remove channel.buffer).1 }
    | none =>
      if channel.closed then
        Except.ok { status := CLOSED_ERROR, channel := channel, signals := [], stored := none }
      else
        Except.ok { status := WOULDBLOCK, channel := channel, signals := [], stored := none }

/-- The function `channel_close`: the flag is read and set under the buffer
mutex; an already closed channel returns before any post. -/
def channel_close (channel : chan_t) : chan_result :=
  if channel.closed then
    { status := CLOSED_ERROR
      channel := { channel with closed := true }
      signals := []
      stored := none }
  else
    { status := SUCCESS
      channel := { channel with
                   closed := true
                   sender := sem_post channel.sender
                   receiver := sem_post channel.receiver }
      signals := signal_all channel.send_list ++ signal_all channel.receive_list
      stored := none }

/-! ## Destroy -/

/-- What `channel_destroy` can hand back to the system.  `payload p` stands for
the object a payload reference points to. -/
inductive Resource where
  | buffer_storage
  | bmutex
  | lmutex
  | sender
  | receiver
  | send_list
  | receive_list
  | channel
  | payload (p : Payload)
  deriving DecidableEq

/-- Modelled from the spec: `buffer_free` of the absent `buffer.c`;
"free() releases storage but does not touch payload references". -/
def buffer_free (_buffer : buffer_t) : List Resource :=
  [Resource.buffer_storage]

/-- The function `list_destroy`: frees the list header. -/
def list_destroy (_list : list_t) (header : Resource) : List Resource :=
  [header]

/-- The result of `channel_destroy`: the status, the channel object if it
still exists, and the resources released, in order. -/
structure destroy_result where
  status : chan_status
  channel : Option chan_t
  released : List Resource
  deriving DecidableEq

/-- The function `channel_destroy`. -/
def channel_destroy (channel : chan_t) : destroy_result :=
  if channel.closed = false then
    { status := DESTROY_ERROR, channel := some channel, released := [] }
  else
    { status := SUCCESS
      channel := none
      released := buffer_free channel.buffer
        ++ [Resource.bmutex, Resource.lmutex, Resource.sender, Resource.receiver]
        ++ list_destroy channel.send_list Resource.send_list
        ++ list_destroy channel.receive_list Resource.receive_list
        ++ [Resource.channel] }

/-! ## Sequences of completed calls on one channel -/

/-- A call on one channel.  `subscribe` and `unsubscribe` are the two registry
steps that a `channel_select` of some thread performs on this channel
(`channel.c` lines 233-241 and 259-267). -/
inductive Call where
  | send (data : Payload) (blocking : Bool)
  | receive (blocking : Bool)
  | close
  | subscribe (is_send : Bool) (h : Handle)
  | unsubscribe (is_send : Bool) (h : Handle)
  deriving DecidableEq

/-- The payloads of the sends that returned SUCCESS and the payloads obtained
by the receives that returned SUCCESS, each in call order. -/
structure History where
  sent : List Payload
  received : List Payload
  deriving DecidableEq

/-- The registry step of the subscribe loop of `channel_select`. -/
def subscribe_one (channel : chan_t) (is_send : Bool) (h : Handle) : chan_t :=
  if is_send then { channel with send_list := list_insert channel.send_list h }
  else { channel with receive_list := list_insert channel.receive_list h }

/-- The registry step of the unsubscribe loop of `channel_select`. -/
def unsubscribe_one (channel : chan_t) (is_send : Bool) (h : Handle) :
    Except Halt chan_t :=
  if is_send then
    match list_remove channel.send_list (list_find channel.send_list h) with
    | Except.error e => Except.error e
    | Except.ok l => Except.ok { channel with send_list := l }
  else
    match list_remove channel.receive_list (list_find channel.receive_list h) with
    | Except.error e => Except.error e
    | Except.ok l => Except.ok { channel with receive_list := l }

/-- One completed call: the channel and the history after it.  A call that
does not return has no successor. -/
def apply_call (channel : chan_t) (hist : History) : Call →
    Except Halt (chan_t × History)
  | Call.send data blocking =>
    match channel_send channel data blocking with
    | Except.error e => Except.error e
    | Except.ok r =>
      Except.ok (r.channel,
        if r.status = SUCCESS then { hist with sent := hist.sent ++ [data] } else hist)
  | Call.receive blocking =>
    match channel_receive channel blocking with
    | Except.error e => Except.error e
    | Except.ok r =>
      Except.ok (r.channel,
        if r.status = SUCCESS then
          { hist with received := hist.received ++ r.stored.toList }
        else hist)
  | Call.close => Except.ok ((channel_close channel).channel, hist)
  | Call.subscribe is_send h => Except.ok (subscribe_one channel is_send h, hist)
  | Call.unsubscribe is_send h =>
    match unsubscribe_one channel is_send h with
    | Except.error e => Except.error e
    | Except.ok c => Except.ok (c, hist)

/-- A sequence of calls, each completed before the next starts. -/
def run (channel : chan_t) (hist : History) : List Call →
    Except Halt (chan_t × History)
  | [] => Except.ok (channel, hist)
  | call :: rest =>
    match apply_call channel hist call with
    | Except.error e => Except.error e
    | Except.ok (c, h) => run c h rest

/-- The empty history. -/
def History.empty : History :=
  { sent := [], received := [] }

/-! ## Select -/

/-- The structure `select_t` of a descriptor: the channel, the payload to send
or the slot a receive stores into, and the direction. -/
structure select_t where
  channel : ChanId
  data : Payload
  is_send : Bool
  deriving DecidableEq

/-- The memory holding the channels: the channel object at each address. -/
abbrev Heap := ChanId → chan_t

/-- What `channel_select` leaves behind: the status it returns, the index it
wrote through `selected_index`, the channels, the descriptor array (a receive
stores into its `data` slot) and the wake handles posted, in order. -/
structure select_result where
  status : chan_status
  selected_index : Nat
  heap : Heap
  channel_list : List select_t
  signals : List Handle

/-- The subscribe loop of `channel_select` (lines 232-242): the address of the
local semaphore `selecter` goes into one waiter list per descriptor. -/
def subscribe_all (heap : Heap) (selecter : Handle) : List select_t → Heap
  | [] => heap
  | d :: rest =>
    subscribe_all
      (Function.update heap d.channel
        (subscribe_one (heap d.channel) d.is_send selecter))
      selecter rest

/-- The unsubscribe loop of `channel_select` (lines 258-268): one
`list_remove(list, list_find(list, &selecter))` per descriptor. -/
def unsubscribe_all (heap : Heap) (selecter : Handle) :
    List select_t → Except Halt Heap
  | [] => Except.ok heap
  | d :: rest =>
    match unsubscribe_one (heap d.channel) d.is_send selecter with
    | Except.error e => Except.error e
    | Except.ok c => unsubscribe_all (Function.update heap d.channel c) selecter rest

/-- The non-blocking call that the scan makes for one descriptor (lines
249-253). -/
def attempt (heap : Heap) (d : select_t) : Except Halt chan_result :=
  if d.is_send then channel_send (heap d.channel) d.data false
  else channel_receive (heap d.channel) false

/-- The write `*data = ...` of a receive made through `&(channel_list[i].data)`. -/
def store_data : List select_t → Nat → Payload → List select_t
  | [], _, _ => []
  | d :: rest, 0, p => { d with data := p } :: rest
  | d :: rest, i + 1, p => d :: store_data rest i p

/-- The descriptor array after the attempt on descriptor `i`. -/
def store_slot (channel_list : List select_t) (i : Nat) :
    Option Payload → List select_t
  | none => channel_list
  | some p => store_data channel_list i p

/-- The return block of the scan (lines 255-270): the index is written, the
handle is unsubscribed from every descriptor, the status is returned. -/
def select_return (selecter : Handle) (heap : Heap) (channel_list : List select_t)
    (i : Nat) (result : chan_status) (posted : List Handle) :
    Except Halt select_result :=
  match unsubscribe_all heap selecter channel_list with
  | Except.error e => Except.error e
  | Except.ok heap1 =>
    Except.ok { status := result, selected_index := i, heap := heap1
                channel_list := channel_list, signals := posted }

/-- The scan of `channel_select` (lines 248-276) from descriptor `i` on.
`channel_list` is the whole array, the last list argument the descriptors not
yet tried, `posted` the handles posted so far.  When the scan reaches the end,
every attempt has returned WOULDBLOCK; such an attempt posts no handle, so the
local semaphore still has the value 0 it was initialised with and
`sem_wait(&selecter)` sleeps. -/
def select_scan (selecter : Handle) (channel_list : List select_t) :
    Heap → Nat → List select_t → List Handle → Except Halt select_result
  | _, _, [], _ => Except.error Halt.waits
  | heap, i, d :: rest, posted =>
    match attempt heap d with
    | Except.error e => Except.error e
    | Except.ok r =>
      if r.status = SUCCESS ∨ r.status = CLOSED_ERROR ∨ r.status = OTHER_ERROR then
        select_return selecter (Function.update heap d.channel r.channel)
          (store_slot channel_list i r.stored) i r.status (posted ++ r.signals)
      else
        select_scan selecter channel_list
          (Function.update heap d.channel r.channel) (i + 1) rest
          (posted ++ r.signals)

/-- The function `channel_select`; `selecter` is the address of its local
semaphore.  The loop counters are not modelled: `channel_count` is the length
of `channel_list`. -/
def channel_select (heap : Heap) (channel_list : List select_t)
    (selecter : Handle) : Except Halt select_result :=
  select_scan selecter channel_list (subscribe_all heap selecter channel_list)
    0 channel_list []

/-- The fields of a channel other than its waiter lists. -/
def core (c : chan_t) : buffer_t × Bool × Nat × Nat :=
  (c.buffer, c.closed, c.sender, c.receiver)

/-- The waiter list of one direction. -/
def waiters (c : chan_t) (is_send : Bool) : list_t :=
  if is_send then c.send_list else c.receive_list

/-- How many nodes of the waiter list of channel `ch`, direction `dir`, hold
the handle `selecter`. -/
def own_count (heap : Heap) (selecter : Handle) (ch : ChanId) (dir : Bool) : Nat :=
  (waiters (heap ch) dir).head.count selecter

/-- How many descriptors name channel `ch` in direction `dir`. -/
def need (channel_list : List select_t) (ch : ChanId) (dir : Bool) : Nat :=
  (channel_list.filter (fun d => decide (d.channel = ch ∧ d.is_send = dir))).length

/-! ## The thread-level layer: blocking send and receive, step by step -/

/-- The program points of the blocking branch of `channel_send` (lines 37-55)
and, mirrored, of `channel_receive` (lines 103-121): each names the statement
the thread executes next. -/
inductive Pc where
  | sem_wait
  | lock_bmutex
  | test_closed
  | unlock_closed
  | repost
  | buffer_op
  | unlock_bmutex
  | post_peer
  | lock_lmutex
  | notify
  | unlock_lmutex
  | returned (status : chan_status)
  deriving DecidableEq

/-- A thread inside a blocking call: the direction, the `data` argument (the
payload of a send, the content of the slot of a receive) and the program
point. -/
structure Thread where
  is_send : Bool
  data : Payload
  pc : Pc
  deriving DecidableEq

/-- One channel shared by threads: the channel, whether each mutex is held,
the threads, and the wake handles posted so far. -/
structure Config where
  channel : chan_t
  bmutex : Bool
  lmutex : Bool
  threads : List Thread
  posted : List Handle
  deriving DecidableEq

/-- The next statement of thread `t`.  The result is `none` when the thread
cannot move: it sleeps in `sem_wait` on a semaphore of value 0, it waits for a
mutex that is held, or its call has returned. -/
def thread_step (cfg : Config) (t : Thread) : Option (Config × Thread) :=
  let c := cfg.channel
  match t.pc with
  | Pc.sem_wait =>
    if t.is_send then
      match sem_wait c.sender with
      | none => none
      | some s => some ({ cfg with channel := { c with sender := s } },
                        { t with pc := Pc.lock_bmutex })
    else
      match sem_wait c.receiver with
      | none => none
      | some s => some ({ cfg with channel := { c with receiver := s } },
                        { t with pc := Pc.lock_bmutex })
  | Pc.lock_bmutex =>
    if cfg.bmutex then none
    else some ({ cfg with bmutex := true }, { t with pc := Pc.test_closed })
  | Pc.test_closed =>
    some (cfg, { t with pc := if c.closed then Pc.unlock_closed else Pc.buffer_op })
  | Pc.unlock_closed =>
    some ({ cfg with bmutex := false }, { t with pc := Pc.repost })
  | Pc.repost =>
    if t.is_send then
      some ({ cfg with channel := { c with sender := sem_post c.sender } },
            { t with pc := Pc.returned CLOSED_ERROR })
    else
      some ({ cfg with channel := { c with receiver := sem_post c.receiver } },
            { t with pc := Pc.returned CLOSED_ERROR })
  | Pc.buffer_op =>
    if t.is_send then
      some ({ cfg with channel := { c with buffer := buffer_add t.data c.buffer } },
            { t with pc := Pc.unlock_bmutex })
    else
      some ({ cfg with channel := { c with buffer := (buffer_remove c.buffer).2 } },
            { t with data := (buffer_remove c.buffer).1, pc := Pc.unlock_bmutex })
  | Pc.unlock_bmutex =>
    some ({ cfg with bmutex := false }, { t with pc := Pc.post_peer })
  | Pc.post_peer =>
    if t.is_send then
      some ({ cfg with channel := { c with receiver := sem_post c.receiver } },
            { t with pc := Pc.lock_lmutex })
    else
      some ({ cfg with channel := { c with sender := sem_post c.sender } },
            { t with pc := Pc.lock_lmutex })
  | Pc.lock_lmutex =>
    if cfg.lmutex then none
    else some ({ cfg with lmutex := true }, { t with pc := Pc.notify })
  | Pc.notify =>
    if t.is_send then
      some ({ cfg with posted := cfg.posted ++ signal_all c.receive_list },
            { t with pc := Pc.unlock_lmutex })
    else
      some ({ cfg with posted := cfg.posted ++ signal_all c.send_list },
            { t with pc := Pc.unlock_lmutex })
  | Pc.unlock_lmutex =>
    some ({ cfg with lmutex := false }, { t with pc := Pc.returned SUCCESS })
  | Pc.returned _ => none

/-- The scheduler runs thread number `tid` for one statement; a thread that
cannot move leaves the configuration as it is. -/
def step (cfg : Config) (tid : Nat) : Config :=
  match cfg.threads[tid]? with
  | none => cfg
  | some t =>
    match thread_step cfg t with
    | none => cfg
    | some (cfg1, t1) => { cfg1 with threads := cfg1.threads.set tid t1 }

/-- A schedule: the thread numbers in the order in which they run. -/
def schedule (cfg : Config) : List Nat → Config
  | [] => cfg
  | tid :: rest => schedule (step cfg tid) rest

/-- Spec scenario 2 on a channel created with the given size: thread 0 is in
a blocking receive, thread 1 in a blocking send of X, both at their first
statement. -/
def rendezvous (size : Nat) (X : Payload) : Config :=
  { channel := channel_create size
    bmutex := false
    lmutex := false
    threads := [{ is_send := false, data := NULL, pc := Pc.sem_wait },
                { is_send := true, data := X, pc := Pc.sem_wait }]
    posted := [] }

/-- A thread alone in a blocking call. -/
def alone (c : chan_t) (t : Thread) : Config :=
  { channel := c, bmutex := false, lmutex := false, threads := [t], posted := [] }

/-! ## The invariant of the call-level layer -/

/-- The relation between the credits, the closed flag and the buffer in a
channel of requested size `n`: while the channel is open the sender credit
is what `channel_create` gave it less the filled slots and the receiver credit
is the number of filled slots; the close does one `sem_post` on each. -/
def Inv (n : Nat) (c : chan_t) : Prop :=
  c.buffer.capacity = n ∧
  c.buffer.data.length ≤ sem_init (n % UINT_RANGE) ∧
  c.sender =
    (if c.closed then sem_post (sem_init (n % UINT_RANGE) - c.buffer.data.length)
     else sem_init (n % UINT_RANGE) - c.buffer.data.length) ∧
  c.receiver =
    (if c.closed then sem_post c.buffer.data.length else c.buffer.data.length)

/-- The invariant together with the bookkeeping of payloads. -/
def Good (n : Nat) (c : chan_t) (h : History) : Prop :=
  Inv n c ∧ h.received ++ c.buffer.data = h.sent

/-- What holds from a successful close on: the flag is set and each semaphore
has a value that a `sem_post` leaves behind (it is not 0, and it is not the
successor of `SEM_VALUE_MAX`). -/
def ClosedInv (c : chan_t) : Prop :=
  c.closed = true ∧ 0 < c.sender ∧ 0 < c.receiver ∧
    c.sender ≠ SEM_VALUE_MAX + 1 ∧ c.receiver ≠ SEM_VALUE_MAX + 1

/-- Spec scenario 1 on a channel of capacity 2, with payloads 10, 20, 30. -/
def scenario_one : List Call :=
  [Call.send 10 false, Call.send 20 false, Call.send 30 false,
   Call.receive true, Call.send 30 false, Call.receive true, Call.receive false]

/-- Spec scenario 3 up to the close: a channel of capacity 1 on which the
send of payload 7 has returned SUCCESS and which has then been closed. -/
def scenario_three : chan_t :=
  { channel_create 1 with
    buffer := { capacity := 1, data := [7] }
    closed := true
    sender := 1
    receiver := 2 }

/-- Spec scenario 5: channel 1 is empty, channel 2 holds payload 42; both
have capacity 1 and no waiter. -/
def scenario_five : Heap := fun ch =>
  if ch = 2 then
    { channel_create 1 with buffer := { capacity := 1, data := [42] }
                            sender := 0, receiver := 1 }
  else channel_create 1

/-- The descriptors of spec scenario 5: receive on channel 1, receive on
channel 2. -/
def scenario_five_list : List select_t :=
  [{ channel := 1, data := NULL, is_send := false },
   { channel := 2, data := NULL, is_send := false }]

/-- Spec scenario 6: channel 1 is open and empty, channel 2 is closed. -/
def scenario_six : Heap := fun ch =>
  if ch = 2 then (channel_close (channel_create 1)).channel else channel_create 1

/-- The fresh channel of size 1 after a successful close. -/
def closed_fresh : chan_t :=
  { channel_create 1 with closed := true, sender := 2, receiver := 1 }

/-- A channel of size 1 on which one select caller, with handle 5, is
subscribed in both directions (its descriptor list names the channel for a
send and for a receive). -/
def both_sides : chan_t :=
  subscribe_one (subscribe_one (channel_create 1) true 5) false 5

/-- A channel of size 1 on which the handle 5 is subscribed twice for a
receive (a descriptor list that names the channel twice in that direction). -/
def twice_receive : chan_t :=
  subscribe_one (subscribe_one (channel_create 1) false 5) false 5

/-- A channel of size 1 on which the handle 5 is subscribed twice for a send. -/
def twice_send : chan_t :=
  subscribe_one (subscribe_one (channel_create 1) true 5) true 5

/-- The waiter lists of `heap` while the handle `h` is subscribed for the
descriptors of `L` on top of the lists `orig`: each list has, in front of its
nodes in `orig`, one node with `h` per descriptor of `L` that names it, and
its counter has moved accordingly (for a counter in the range of `size_t`). -/
def Subscribed (h : Handle) (orig : ChanId → Bool → list_t) (L : List select_t)
    (heap : Heap) : Prop :=
  ∀ ch dir,
    (waiters (heap ch) dir).head =
      List.replicate (need L ch dir) h ++ (orig ch dir).head ∧
    ((orig ch dir).count < SIZE_RANGE →
      (waiters (heap ch) dir).count =
        ((orig ch dir).count + need L ch dir) % SIZE_RANGE)

/-- Two channels of size 1; on channel 1 another select caller, with handle
5, waits for a receive. -/
def scenario_lists : Heap := fun ch =>
  if ch = 1 then
    { channel_create 1 with receive_list := list_insert list_create 5 }
  else channel_create 1

/-- A descriptor list that names channel 1 three times, twice for a send and
once for a receive, after a receive on the empty channel 2. -/
def repeated_list : List select_t :=
  [{ channel := 2, data := NULL, is_send := false },
   { channel := 1, data := 7, is_send := true },
   { channel := 1, data := 8, is_send := true },
   { channel := 1, data := NULL, is_send := false }]

/-! ## The waiter list (`linked_list.c`) at the level of nodes and pointers -/

namespace Ptr

/-- The structure `list_node_t`: the data and the two links, NULL being 0. -/
structure list_node_t where
  data : Handle
  prev : Nat
  next : Nat
  deriving DecidableEq

/-- The memory of nodes: the node stored at an address, `none` where no node
is allocated. -/
abbrev NodeMem := Nat → Option list_node_t

/-- The structure `list_t`: the head pointer and the counter. -/
structure list_t where
  head : Nat
  count : Nat
  deriving DecidableEq

/-- The function `list_create`: an empty list. -/
def list_create : list_t :=
  { head := NULL, count := 0 }

/-- A read through the pointer `p`: a fault when `p` is NULL or no node is
allocated there. -/
def load (mem : NodeMem) (p : Nat) : Except Halt list_node_t :=
  if p = NULL then Except.error Halt.fault
  else
    match mem p with
    | none => Except.error Halt.fault
    | some n => Except.ok n

/-- The loop of `list_find`.  The first number argument bounds the number of
times the loop test is evaluated; `none` means that the bound was reached
before the loop ended. -/
def list_find_loop (mem : NodeMem) (data : Handle) :
    Nat → Nat → Option (Except Halt Nat)
  | 0, _ => none
  | fuel + 1, p =>
    if p = NULL then some (Except.ok NULL)
    else
      match mem p with
      | none => some (Except.error Halt.fault)
      | some n =>
        if n.data = data then some (Except.ok p)
        else list_find_loop mem data fuel n.next

/-- The function `list_find`: the address of the first node with the given
data, NULL when the loop ends without one. -/
def list_find (mem : NodeMem) (list : list_t) (data : Handle) (fuel : Nat) :
    Option (Except Halt Nat) :=
  list_find_loop mem data fuel list.head

/-- The function `list_insert`; `new_node` is the address that `malloc`
returns. -/
def list_insert (mem : NodeMem) (list : list_t) (data : Handle) (new_node : Nat) :
    Except Halt (NodeMem × list_t) :=
  let count := (list.count + 1) % SIZE_RANGE
  if new_node = NULL then Except.error Halt.fault
  else
    let mem1 := Function.update mem new_node
      (some { data := data, prev := NULL, next := list.head })
    let first_node := list.head
    if first_node ≠ NULL then
      match mem1 first_node with
      | none => Except.error Halt.fault
      | some n =>
        Except.ok (Function.update mem1 first_node (some { n with prev := new_node }),
                   { head := new_node, count := count })
    else Except.ok (mem1, { head := new_node, count := count })

/-- The first conditional of `list_remove`: `node->prev->next = node->next`, or
`list->head = node->next` for the first node.  The result is the memory and
the head pointer. -/
def unlink_prev (mem : NodeMem) (head : Nat) (n : list_node_t) :
    Except Halt (NodeMem × Nat) :=
  if n.prev ≠ NULL then
    match mem n.prev with
    | none => Except.error Halt.fault
    | some q => Except.ok (Function.update mem n.prev (some { q with next := n.next }), head)
  else Except.ok (mem, n.next)

/-- The second conditional of `list_remove`: `node->next->prev = node->prev`
unless the node is the last. -/
def unlink_next (mem : NodeMem) (n : list_node_t) : Except Halt NodeMem :=
  if n.next ≠ NULL then
    match mem n.next with
    | none => Except.error Halt.fault
    | some q => Except.ok (Function.update mem n.next (some { q with prev := n.prev }))
  else Except.ok mem

/-- The function `list_remove`: the counter, the two conditionals, each
reading the node again, and `free(node)`. -/
def list_remove (mem : NodeMem) (list : list_t) (node : Nat) :
    Except Halt (NodeMem × list_t) :=
  let count := (list.count + SIZE_RANGE - 1) % SIZE_RANGE
  match load mem node with
  | Except.error e => Except.error e
  | Except.ok n =>
    match unlink_prev mem list.head n with
    | Except.error e => Except.error e
    | Except.ok (mem1, head) =>
      match load mem1 node with
      | Except.error e => Except.error e
      | Except.ok n1 =>
        match unlink_next mem1 n1 with
        | Except.error e => Except.error e
        | Except.ok mem2 =>
          Except.ok (Function.update mem2 node none, { head := head, count := count })

/-- The chain of nodes from `p`: the addresses in `ps` are the nodes reached
from `p` along `next` up to NULL, the first has `prev` equal to the given
pointer and every other has `prev` equal to the address before it. -/
def Seg (mem : NodeMem) : Nat → Nat → List Nat → Prop
  | _, p, [] => p = NULL
  | prev, p, a :: rest =>
    p = a ∧ a ≠ NULL ∧ ∃ n, mem a = some n ∧ n.prev = prev ∧ Seg mem a n.next rest

/-- A well formed list with nodes `ps`, head first: the chain from
`list->head` with NULL as the first `prev`, the counter equal to the number
of nodes, the addresses distinct and in the range of a pointer. -/
def WF (mem : NodeMem) (list : list_t) (ps : List Nat) : Prop :=
  Seg mem NULL list.head ps ∧ list.count = ps.length ∧ ps.Nodup ∧
    ∀ a ∈ ps, a < SIZE_RANGE

/-- The data field of the node at an address. -/
def data_at (mem : NodeMem) (a : Nat) : Handle :=
  match mem a with
  | none => NULL
  | some n => n.data

/-- The data fields of the nodes `ps`, in order: the sequence that the type
`Chan.list_t` keeps in its field `head`. -/
def contents (mem : NodeMem) (ps : List Nat) : List Handle :=
  ps.map (data_at mem)

/-- A call of `list_insert` (with the address `malloc` returns) or of
`list_remove`. -/
inductive Op where
  | insert (data : Handle) (new_node : Nat)
  | remove (node : Nat)
  deriving DecidableEq

/-- The memory, the list header and the nodes of the list, head first. -/
structure State where
  mem : NodeMem
  list : list_t
  nodes : List Nat

/-- One call on a state. -/
def apply_op (s : State) : Op → Except Halt State
  | Op.insert data new_node =>
    match list_insert s.mem s.list data new_node with
    | Except.error e => Except.error e
    | Except.ok (mem, list) =>
      Except.ok { mem := mem, list := list, nodes := new_node :: s.nodes }
  | Op.remove node =>
    match list_remove s.mem s.list node with
    | Except.error e => Except.error e
    | Except.ok (mem, list) =>
      Except.ok { mem := mem, list := list, nodes := s.nodes.erase node }

/-- A sequence of calls. -/
def run_ops (s : State) : List Op → Except Halt State
  | [] => Except.ok s
  | op :: rest =>
    match apply_op s op with
    | Except.error e => Except.error e
    | Except.ok s1 => run_ops s1 rest

/-- What a call may be given: `malloc` returns a non-null address, in the range
of a pointer, at which no node is allocated; `list_remove` gets a node of the
list. -/
def admissible_op (s : State) : Op → Prop
  | Op.insert _ new_node =>
    new_node ≠ NULL ∧ new_node < SIZE_RANGE ∧ s.mem new_node = none
  | Op.remove node => node ∈ s.nodes

/-- A sequence of calls each of which is admissible in the state it is made
in. -/
def Admissible (s : State) : List Op → Prop
  | [] => True
  | op :: rest =>
    admissible_op s op ∧
      match apply_op s op with
      | Except.error _ => True
      | Except.ok s1 => Admissible s1 rest

/-- The state after `list_create`, with no node allocated. -/
def created : State :=
  { mem := fun _ => none, list := list_create, nodes := [] }

end Ptr

/-- A memory with two nodes: the node at 32 holds handle 6 and is the head,
the node at 16 holds handle 5 and is its successor. -/
def two_nodes : Ptr.NodeMem := fun a =>
  if a = 32 then some { data := 6, prev := NULL, next := 16 }
  else if a = 16 then some { data := 5, prev := 32, next := NULL }
  else none

/-- The header of the list of `two_nodes`. -/
def two_nodes_list : Ptr.list_t :=
  { head := 32, count := 2 }

/-- Three inserts, of handles 5, 6, 7 at the addresses 16, 32, 48, then the
removal of the middle node, of the head and of the last node. -/
def six_calls : List Ptr.Op :=
  [Ptr.Op.insert 5 16, Ptr.Op.insert 6 32, Ptr.Op.insert 7 48,
   Ptr.Op.remove 32, Ptr.Op.remove 48, Ptr.Op.remove 16]

/-! ## Theorems -/

theorem uint_mod_le (n : Nat) : n % UINT_RANGE ≤ n :=
  Nat.mod_le n UINT_RANGE

/-! ### Semaphores -/

theorem sem_init_le_max (value : Nat) : sem_init value ≤ SEM_VALUE_MAX := by
  unfold sem_init SEM_UNSET
  split
  · assumption
  · exact Nat.zero_le _

theorem sem_init_le (value : Nat) : sem_init value ≤ value := by
  unfold sem_init SEM_UNSET
  split
  · exact Nat.le_refl _
  · exact Nat.zero_le _

theorem sem_init_of_le (value : Nat) (h : value ≤ SEM_VALUE_MAX) :
    sem_init value = value := by
  unfold sem_init
  rw [if_pos h]

theorem sem_init_zero : sem_init 0 = 0 :=
  sem_init_of_le 0 (Nat.zero_le _)

theorem sem_init_uint (n : Nat) (h : n ≤ SEM_VALUE_MAX) :
    sem_init (n % UINT_RANGE) = n := by
  have h1 : n % UINT_RANGE = n :=
    Nat.mod_eq_of_lt (by unfold SEM_VALUE_MAX at h; unfold UINT_RANGE; omega)
  rw [h1, sem_init_of_le n h]

theorem sem_post_of_ne (s : Nat) (h : s ≠ SEM_VALUE_MAX) : sem_post s = s + 1 := by
  unfold sem_post
  rw [if_neg h]

theorem sem_post_max : sem_post SEM_VALUE_MAX = SEM_VALUE_MAX := by
  unfold sem_post
  rw [if_pos rfl]

theorem sem_post_pos (s : Nat) : 0 < sem_post s := by
  unfold sem_post
  split
  · rename_i h; rw [h]; unfold SEM_VALUE_MAX; omega
  · omega

theorem sem_post_ne_succ_max (s : Nat) : sem_post s ≠ SEM_VALUE_MAX + 1 := by
  unfold sem_post
  split
  · rename_i h; rw [h]; omega
  · rename_i h; omega

theorem sem_post_le_max (s : Nat) (h : s ≤ SEM_VALUE_MAX) :
    sem_post s ≤ SEM_VALUE_MAX := by
  unfold sem_post
  split
  · assumption
  · rename_i h1; omega

/-- A unit taken and given back: the value is the one before. -/
theorem sem_post_pred (s : Nat) (h0 : s ≠ 0) (h1 : s ≠ SEM_VALUE_MAX + 1) :
    sem_post (s - 1) = s := by
  rw [sem_post_of_ne _ (by omega)]
  omega

/-! ### The invariant -/

theorem good_create (n : Nat) : Good n (channel_create n) History.empty := by
  simp [Good, Inv, channel_create, buffer_create, sem_init_zero, History.empty]

/-- The three ways a send ends, read off the source: no credit, closed, or
the payload goes in. -/
theorem channel_send_eq (c : chan_t) (p : Payload) (b : Bool) :
    channel_send c p b =
      if c.sender = 0 then
        (if b then Except.error Halt.waits
         else Except.ok { status := if c.closed then CLOSED_ERROR else WOULDBLOCK
                          channel := c, signals := [], stored := none })
      else if c.closed then
        Except.ok { status := CLOSED_ERROR
                    channel := { c with sender := sem_post (c.sender - 1) }
                    signals := [], stored := none }
      else
        Except.ok { status := SUCCESS
                    channel := { c with sender := c.sender - 1
                                        buffer := buffer_add p c.buffer
                                        receiver := sem_post c.receiver }
                    signals := c.receive_list.head, stored := none } := by
  obtain ⟨buf, cl, snd, rcv, sl, rl⟩ := c
  unfold channel_send sem_wait sem_trywait
  cases snd <;> cases b <;> cases cl <;> simp [signal_all]

/-- The three ways a receive ends. -/
theorem channel_receive_eq (c : chan_t) (b : Bool) :
    channel_receive c b =
      if c.receiver = 0 then
        (if b then Except.error Halt.waits
         else Except.ok { status := if c.closed then CLOSED_ERROR else WOULDBLOCK
                          channel := c, signals := [], stored := none })
      else if c.closed then
        Except.ok { status := CLOSED_ERROR
                    channel := { c with receiver := sem_post (c.receiver - 1) }
                    signals := [], stored := none }
      else
        Except.ok { status := SUCCESS
                    channel := { c with receiver := c.receiver - 1
                                        buffer := (buffer_remove c.buffer).2
                                        sender := sem_post c.sender }
                    signals := c.send_list.head
                    stored := some (buffer_remove c.buffer).1 } := by
  obtain ⟨buf, cl, snd, rcv, sl, rl⟩ := c
  unfold channel_receive sem_wait sem_trywait
  cases rcv <;> cases b <;> cases cl <;> simp [signal_all]

theorem good_send (n : Nat) (c : chan_t) (h : History) (p : Payload) (b : Bool)
    (r : chan_result) (hg : Good n c h) (hr : channel_send c p b = Except.ok r) :
    Good n r.channel
      (if r.status = SUCCESS then { h with sent := h.sent ++ [p] } else h) := by
  obtain ⟨⟨hcap, hlen, hs, hrc⟩, hh⟩ := hg
  have hle := uint_mod_le n
  have hi1 := sem_init_le (n % UINT_RANGE)
  have hi2 := sem_init_le_max (n % UINT_RANGE)
  rw [channel_send_eq] at hr
  by_cases h0 : c.sender = 0
  · cases b <;> simp [h0] at hr
    subst hr
    have hne : ¬ ((if c.closed = true then CLOSED_ERROR else WOULDBLOCK) = SUCCESS) := by
      cases c.closed <;> simp
    rw [if_neg hne]
    exact ⟨⟨hcap, hlen, hs, hrc⟩, hh⟩
  · cases hc : c.closed
    · simp [h0, hc] at hr
      subst hr
      simp only [hc, Bool.false_eq_true, if_false] at hs hrc
      have hlt : c.buffer.data.length < c.buffer.capacity := by omega
      have hp : sem_post c.receiver = c.receiver + 1 := sem_post_of_ne _ (by omega)
      refine ⟨⟨?_, ?_, ?_, ?_⟩, ?_⟩
      · simp [buffer_add, hlt]; exact hcap
      · simp [buffer_add, hlt]; omega
      · simp [buffer_add, hlt, hc]; omega
      · simp [buffer_add, hlt, hc, hp]; omega
      · simp [buffer_add, hlt, ← hh]
    · simp [h0, hc] at hr
      subst hr
      simp only [reduceCtorEq, if_false]
      simp only [hc, if_true] at hs hrc
      have hb : sem_post (c.sender - 1) = c.sender := by
        apply sem_post_pred _ h0
        rw [hs]
        exact sem_post_ne_succ_max _
      refine ⟨⟨hcap, hlen, ?_, ?_⟩, hh⟩
      · simp only [hc, if_true, hb]; exact hs
      · simp only [hc, if_true]; exact hrc

theorem good_receive (n : Nat) (c : chan_t) (h : History) (b : Bool)
    (r : chan_result) (hg : Good n c h) (hr : channel_receive c b = Except.ok r) :
    Good n r.channel
      (if r.status = SUCCESS then
        { h with received := h.received ++ r.stored.toList } else h) := by
  obtain ⟨⟨hcap, hlen, hs, hrc⟩, hh⟩ := hg
  have hi2 := sem_init_le_max (n % UINT_RANGE)
  rw [channel_receive_eq] at hr
  by_cases h0 : c.receiver = 0
  · cases b <;> simp [h0] at hr
    subst hr
    have hne : ¬ ((if c.closed = true then CLOSED_ERROR else WOULDBLOCK) = SUCCESS) := by
      cases c.closed <;> simp
    rw [if_neg hne]
    exact ⟨⟨hcap, hlen, hs, hrc⟩, hh⟩
  · cases hc : c.closed
    · simp [h0, hc] at hr
      subst hr
      simp only [hc, Bool.false_eq_true, if_false] at hs hrc
      have hp : sem_post c.sender = c.sender + 1 := sem_post_of_ne _ (by omega)
      cases hd : c.buffer.data with
      | nil => simp [hd] at hrc; omega
      | cons q rest =>
        simp only [hd, List.length_cons] at hs hrc hlen hh
        refine ⟨⟨?_, ?_, ?_, ?_⟩, ?_⟩
        · simp [buffer_remove, hd, hcap]
        · simp [buffer_remove, hd]; omega
        · simp [buffer_remove, hd, hc, hp]; omega
        · simp [buffer_remove, hd, hc]; omega
        · simp [buffer_remove, hd, ← hh]
    · simp [h0, hc] at hr
      subst hr
      simp only [reduceCtorEq, if_false]
      simp only [hc, if_true] at hs hrc
      have hb : sem_post (c.receiver - 1) = c.receiver := by
        apply sem_post_pred _ h0
        rw [hrc]
        exact sem_post_ne_succ_max _
      refine ⟨⟨hcap, hlen, ?_, ?_⟩, hh⟩
      · simp only [hc, if_true]; exact hs
      · simp only [hc, if_true, hb]; exact hrc

theorem good_close (n : Nat) (c : chan_t) (h : History) (hg : Good n c h) :
    Good n (channel_close c).channel h := by
  obtain ⟨⟨hcap, hlen, hs, hrc⟩, hh⟩ := hg
  unfold channel_close
  cases hc : c.closed
  · simp only [hc, Bool.false_eq_true, if_false] at hs hrc
    refine ⟨⟨hcap, hlen, ?_, ?_⟩, hh⟩
    · simp only [Bool.false_eq_true, if_false, if_true, hs]
    · simp only [Bool.false_eq_true, if_false, if_true, hrc]
  · simp only [hc, if_true] at hs hrc
    refine ⟨⟨hcap, hlen, ?_, ?_⟩, hh⟩
    · simpa using hs
    · simpa using hrc

theorem good_subscribe (n : Nat) (c : chan_t) (h : History) (d : Bool) (w : Handle)
    (hg : Good n c h) : Good n (subscribe_one c d w) h := by
  unfold subscribe_one
  cases d <;> exact hg

theorem good_unsubscribe (n : Nat) (c c1 : chan_t) (h : History) (d : Bool)
    (w : Handle) (hg : Good n c h) (hu : unsubscribe_one c d w = Except.ok c1) :
    Good n c1 h := by
  unfold unsubscribe_one at hu
  cases d <;> simp only [Bool.false_eq_true, if_false, if_true] at hu <;>
    split at hu <;> first | (injection hu with hu; subst hu; exact hg) | cases hu

theorem good_apply (n : Nat) (c c1 : chan_t) (h h1 : History) (call : Call)
    (hg : Good n c h) (hs : apply_call c h call = Except.ok (c1, h1)) :
    Good n c1 h1 := by
  cases call with
  | send p b =>
    simp only [apply_call] at hs
    split at hs
    · cases hs
    · rename_i r hr
      injection hs with hs
      injection hs with e1 e2
      subst e1 e2
      exact good_send n c h p b r hg hr
  | receive b =>
    simp only [apply_call] at hs
    split at hs
    · cases hs
    · rename_i r hr
      injection hs with hs
      injection hs with e1 e2
      subst e1 e2
      exact good_receive n c h b r hg hr
  | close =>
    simp only [apply_call] at hs
    injection hs with hs
    injection hs with e1 e2
    subst e1 e2
    exact good_close n c h hg
  | subscribe d w =>
    simp only [apply_call] at hs
    injection hs with hs
    injection hs with e1 e2
    subst e1 e2
    exact good_subscribe n c h d w hg
  | unsubscribe d w =>
    simp only [apply_call] at hs
    split at hs
    · cases hs
    · rename_i r hr
      injection hs with hs
      injection hs with e1 e2
      subst e1 e2
      exact good_unsubscribe n c r h d w hg hr

theorem good_run (n : Nat) (calls : List Call) :
    ∀ (c c1 : chan_t) (h h1 : History), Good n c h →
      run c h calls = Except.ok (c1, h1) → Good n c1 h1 := by
  induction calls with
  | nil =>
    intro c c1 h h1 hg hr
    simp only [run] at hr
    injection hr with hr
    injection hr with e1 e2
    subst e1 e2
    exact hg
  | cons call rest ih =>
    intro c c1 h h1 hg hr
    simp only [run] at hr
    split at hr
    · cases hr
    · rename_i c2 h2 hs
      exact ih c2 c1 h2 h1 (good_apply n c c2 h h2 call hg hs) hr

theorem closed_send (c : chan_t) (hc : ClosedInv c) (p : Payload) (b : Bool) :
    channel_send c p b =
      Except.ok { status := CLOSED_ERROR, channel := c, signals := [], stored := none } := by
  obtain ⟨buf, cl, snd, rcv, sl, rl⟩ := c
  obtain ⟨h1, h2, _, h4, _⟩ := hc
  simp only at h1 h2 h4
  subst h1
  rw [channel_send_eq]
  simp [Nat.ne_of_gt h2, sem_post_pred snd (Nat.ne_of_gt h2) h4]

theorem closed_receive (c : chan_t) (hc : ClosedInv c) (b : Bool) :
    channel_receive c b =
      Except.ok { status := CLOSED_ERROR, channel := c, signals := [], stored := none } := by
  obtain ⟨buf, cl, snd, rcv, sl, rl⟩ := c
  obtain ⟨h1, _, h3, _, h5⟩ := hc
  simp only at h1 h3 h5
  subst h1
  rw [channel_receive_eq]
  simp [Nat.ne_of_gt h3, sem_post_pred rcv (Nat.ne_of_gt h3) h5]

theorem close_closed (c : chan_t) (hc : c.closed = true) :
    channel_close c =
      { status := CLOSED_ERROR, channel := c, signals := [], stored := none } := by
  obtain ⟨buf, cl, snd, rcv, sl, rl⟩ := c
  simp only at hc
  subst hc
  simp [channel_close]

theorem closedInv_close (c : chan_t) (ho : c.closed = false) :
    ClosedInv (channel_close c).channel := by
  simp only [ClosedInv, channel_close, ho, Bool.false_eq_true, if_false]
  exact ⟨trivial, sem_post_pos _, sem_post_pos _, sem_post_ne_succ_max _,
    sem_post_ne_succ_max _⟩

theorem unsubscribe_frame (c c1 : chan_t) (d : Bool) (w : Handle)
    (hu : unsubscribe_one c d w = Except.ok c1) :
    c1.buffer = c.buffer ∧ c1.closed = c.closed ∧ c1.sender = c.sender ∧
      c1.receiver = c.receiver := by
  unfold unsubscribe_one at hu
  cases d <;> simp only [Bool.false_eq_true, if_false, if_true] at hu <;>
    split at hu <;>
    first | (injection hu with hu; subst hu; exact ⟨rfl, rfl, rfl, rfl⟩) | cases hu

theorem closedInv_apply (c c1 : chan_t) (h h1 : History) (call : Call)
    (hc : ClosedInv c) (hs : apply_call c h call = Except.ok (c1, h1)) :
    ClosedInv c1 := by
  cases call with
  | send p b =>
    simp [apply_call, closed_send c hc p b] at hs
    rw [← hs.1]; exact hc
  | receive b =>
    simp [apply_call, closed_receive c hc b] at hs
    rw [← hs.1]; exact hc
  | close =>
    simp [apply_call, close_closed c hc.1] at hs
    rw [← hs.1]; exact hc
  | subscribe d w =>
    simp [apply_call, subscribe_one] at hs
    rw [← hs.1]
    cases d <;> exact hc
  | unsubscribe d w =>
    simp only [apply_call] at hs
    split at hs
    · cases hs
    · rename_i r hr
      injection hs with hs
      injection hs with e1 e2
      subst e1 e2
      obtain ⟨_, f2, f3, f4⟩ := unsubscribe_frame c r d w hr
      unfold ClosedInv
      rw [f2, f3, f4]
      exact hc

theorem closedInv_run (calls : List Call) :
    ∀ (c c1 : chan_t) (h h1 : History), ClosedInv c →
      run c h calls = Except.ok (c1, h1) → ClosedInv c1 := by
  induction calls with
  | nil =>
    intro c c1 h h1 hg hr
    simp only [run] at hr
    injection hr with hr
    injection hr with e1 e2
    subst e1 e2
    exact hg
  | cons call rest ih =>
    intro c c1 h h1 hg hr
    simp only [run] at hr
    split at hr
    · cases hr
    · rename_i c2 h2 hs
      exact ih c2 c1 h2 h1 (closedInv_apply c c2 h h2 call hg hs) hr

/-! ### Waiter lists -/

theorem find_node_of_mem (h : Handle) :
    ∀ l : List Handle, h ∈ l →
      ∃ i, find_node l h = some i ∧ i < l.length ∧ l.eraseIdx i = l.erase h := by
  intro l
  induction l with
  | nil => intro hm; cases hm
  | cons d rest ih =>
    intro hm
    by_cases hd : d = h
    · subst hd
      exact ⟨0, by simp [find_node], by simp, by simp⟩
    · have hm1 : h ∈ rest := by
        rcases List.mem_cons.mp hm with e | e
        · exact absurd e.symm hd
        · exact e
      obtain ⟨i, h1, h2, h3⟩ := ih hm1
      refine ⟨i + 1, by simp [find_node, hd, h1], by simp; omega, ?_⟩
      have hb : (d == h) = false := by simpa using hd
      simp [List.eraseIdx, h3, List.erase_cons, hb]

theorem waiters_subscribe (c : chan_t) (dir dir1 : Bool) (h : Handle) :
    waiters (subscribe_one c dir h) dir1 =
      if dir1 = dir then list_insert (waiters c dir1) h else waiters c dir1 := by
  cases dir <;> cases dir1 <;> simp [waiters, subscribe_one]

theorem core_subscribe (c : chan_t) (dir : Bool) (h : Handle) :
    core (subscribe_one c dir h) = core c := by
  cases dir <;> rfl

theorem unsubscribe_one_of_mem (c : chan_t) (dir : Bool) (h : Handle)
    (hm : h ∈ (waiters c dir).head) :
    ∃ c1, unsubscribe_one c dir h = Except.ok c1 ∧ core c1 = core c ∧
      (waiters c1 dir).head = (waiters c dir).head.erase h ∧
      waiters c1 (!dir) = waiters c (!dir) := by
  obtain ⟨i, h1, h2, h3⟩ := find_node_of_mem h _ hm
  cases dir
  · simp only [waiters, Bool.false_eq_true, if_false] at h1 h2 h3
    refine ⟨{ c with receive_list :=
                { head := c.receive_list.head.eraseIdx i
                  count := (c.receive_list.count + SIZE_RANGE - 1) % SIZE_RANGE } },
      ?_, rfl, ?_, rfl⟩
    · simp [unsubscribe_one, list_remove, list_find, h1, h2]
    · simp [waiters, h3]
  · simp only [waiters, if_true] at h1 h2 h3
    refine ⟨{ c with send_list :=
                { head := c.send_list.head.eraseIdx i
                  count := (c.send_list.count + SIZE_RANGE - 1) % SIZE_RANGE } },
      ?_, rfl, ?_, rfl⟩
    · simp [unsubscribe_one, list_remove, list_find, h1, h2]
    · simp [waiters, h3]

theorem need_cons (d : select_t) (rest : List select_t) (ch : ChanId) (dir : Bool) :
    need (d :: rest) ch dir =
      (if d.channel = ch ∧ d.is_send = dir then 1 else 0) + need rest ch dir := by
  unfold need
  by_cases hk : d.channel = ch ∧ d.is_send = dir
  · simp [List.filter_cons, hk]; omega
  · simp [List.filter_cons, hk]

theorem own_count_update (heap : Heap) (h : Handle) (ch0 ch : ChanId) (c1 : chan_t)
    (dir : Bool) :
    own_count (Function.update heap ch0 c1) h ch dir =
      if ch = ch0 then (waiters c1 dir).head.count h else own_count heap h ch dir := by
  unfold own_count
  by_cases e : ch = ch0
  · subst e; simp
  · simp [Function.update_noteq e, e]

/-- The unsubscribe loop finds the handle at every step when each waiter list
holds it at least as often as descriptors name that list. -/
theorem unsubscribe_all_ok (h : Handle) :
    ∀ (L : List select_t) (heap : Heap),
      (∀ ch dir, need L ch dir ≤ own_count heap h ch dir) →
      ∃ heap1, unsubscribe_all heap h L = Except.ok heap1 ∧
        (∀ ch, core (heap1 ch) = core (heap ch)) ∧
        (∀ ch dir, own_count heap1 h ch dir + need L ch dir = own_count heap h ch dir) := by
  intro L
  induction L with
  | nil =>
    intro heap _
    exact ⟨heap, rfl, fun _ => rfl, fun ch dir => by simp [need]⟩
  | cons d rest ih =>
    intro heap hn
    have h1 := hn d.channel d.is_send
    rw [need_cons] at h1
    simp only [and_self, if_true] at h1
    have hm : h ∈ (waiters (heap d.channel) d.is_send).head := by
      apply List.count_pos_iff.mp
      unfold own_count at h1
      omega
    obtain ⟨c1, e1, e2, e3, e4⟩ := unsubscribe_one_of_mem (heap d.channel) d.is_send h hm
    have hcount : ∀ ch dir,
        own_count (Function.update heap d.channel c1) h ch dir +
          (if d.channel = ch ∧ d.is_send = dir then 1 else 0) =
        own_count heap h ch dir := by
      intro ch dir
      rw [own_count_update]
      by_cases hc : ch = d.channel
      · subst hc
        by_cases hd : dir = d.is_send
        · subst hd
          simp only [and_self, if_true, e3, List.count_erase_self]
          unfold own_count at h1 ⊢
          omega
        · have hd1 : dir = !d.is_send := by
            cases dir <;> cases hq : d.is_send <;> simp_all
          have hd2 : ¬ (d.is_send = dir) := fun e => hd e.symm
          simp only [hd2, and_false, if_false, if_true, Nat.add_zero]
          rw [hd1, e4]
          rfl
      · have hc1 : ¬ (d.channel = ch) := fun e => hc e.symm
        simp [hc, hc1]
    have hn1 : ∀ ch dir,
        need rest ch dir ≤ own_count (Function.update heap d.channel c1) h ch dir := by
      intro ch dir
      have a := hn ch dir
      have b := hcount ch dir
      rw [need_cons] at a
      omega
    obtain ⟨heap1, f1, f2, f3⟩ := ih (Function.update heap d.channel c1) hn1
    refine ⟨heap1, by simp [unsubscribe_all, e1, f1], ?_, ?_⟩
    · intro ch
      rw [f2 ch]
      by_cases hc : ch = d.channel
      · subst hc; simp [e2]
      · simp [Function.update_noteq hc]
    · intro ch dir
      have a := f3 ch dir
      have b := hcount ch dir
      rw [need_cons]
      omega

theorem subscribe_all_core (h : Handle) :
    ∀ (L : List select_t) (heap : Heap) (ch : ChanId),
      core (subscribe_all heap h L ch) = core (heap ch) := by
  intro L
  induction L with
  | nil => intro heap ch; rfl
  | cons d rest ih =>
    intro heap ch
    simp only [subscribe_all]
    rw [ih]
    by_cases hc : ch = d.channel
    · subst hc; simp [core_subscribe]
    · simp [Function.update_noteq hc]

theorem subscribe_all_count (h : Handle) :
    ∀ (L : List select_t) (heap : Heap) (ch : ChanId) (dir : Bool),
      own_count (subscribe_all heap h L) h ch dir =
        own_count heap h ch dir + need L ch dir := by
  intro L
  induction L with
  | nil => intro heap ch dir; simp [subscribe_all, need]
  | cons d rest ih =>
    intro heap ch dir
    simp only [subscribe_all]
    rw [ih, own_count_update, need_cons]
    by_cases hc : ch = d.channel
    · subst hc
      by_cases hd : dir = d.is_send
      · subst hd
        simp [waiters_subscribe, list_insert, own_count]
        omega
      · have hd2 : ¬ (d.is_send = dir) := fun e => hd e.symm
        simp [waiters_subscribe, hd, hd2, own_count]
    · have hc1 : ¬ (d.channel = ch) := fun e => hc e.symm
      simp [hc, hc1]

/-! ### The scan of select -/

/-- A non-blocking attempt returns, in one of three ways. -/
theorem attempt_cases (heap : Heap) (d : select_t) :
    ∃ r, attempt heap d = Except.ok r ∧
      ((r.status = WOULDBLOCK ∧ r.channel = heap d.channel ∧ r.signals = [] ∧
          r.stored = none ∧ (heap d.channel).closed = false) ∨
       (r.status = CLOSED_ERROR ∧
          (∀ dir, waiters r.channel dir = waiters (heap d.channel) dir) ∧
          r.signals = [] ∧ r.stored = none ∧ (heap d.channel).closed = true) ∨
       (r.status = SUCCESS ∧ (heap d.channel).closed = false ∧
          (∀ dir, waiters r.channel dir = waiters (heap d.channel) dir) ∧
          (d.is_send = false → ∃ p, r.stored = some p) ∧
          (d.is_send = true → r.stored = none))) := by
  unfold attempt
  cases hd : d.is_send
  · simp only [Bool.false_eq_true, if_false]
    rw [channel_receive_eq]
    by_cases h0 : (heap d.channel).receiver = 0 <;>
      cases hc : (heap d.channel).closed <;>
      simp [h0, hc, waiters]
  · simp only [if_true]
    rw [channel_send_eq]
    by_cases h0 : (heap d.channel).sender = 0 <;>
      cases hc : (heap d.channel).closed <;>
      simp [h0, hc, waiters]

/-- The outcome of an attempt but for the waiter lists is a function of the
channel but for its waiter lists. -/
theorem attempt_congr (heap1 heap2 : Heap) (d : select_t)
    (hcore : core (heap1 d.channel) = core (heap2 d.channel)) (r1 : chan_result)
    (h1 : attempt heap1 d = Except.ok r1) :
    ∃ r2, attempt heap2 d = Except.ok r2 ∧ r2.status = r1.status ∧
      core r2.channel = core r1.channel ∧ r2.stored = r1.stored := by
  simp only [core, Prod.mk.injEq] at hcore
  obtain ⟨hb, hcl, hs, hr⟩ := hcore
  unfold attempt at h1 ⊢
  cases hd : d.is_send
  · simp only [hd, Bool.false_eq_true, if_false] at h1 ⊢
    rw [channel_receive_eq] at h1 ⊢
    rw [← hr, ← hcl, ← hb, ← hs]
    by_cases h0 : (heap1 d.channel).receiver = 0 <;>
      cases hc : (heap1 d.channel).closed <;>
      simp [h0, hc] at h1 ⊢ <;> subst h1 <;> simp [core, hb, hcl, hs, hr, hc]
  · simp only [hd, if_true] at h1 ⊢
    rw [channel_send_eq] at h1 ⊢
    rw [← hr, ← hcl, ← hb, ← hs]
    by_cases h0 : (heap1 d.channel).sender = 0 <;>
      cases hc : (heap1 d.channel).closed <;>
      simp [h0, hc] at h1 ⊢ <;> subst h1 <;> simp [core, hb, hcl, hs, hr, hc]

theorem unsubscribe_all_store_data (h : Handle) :
    ∀ (L : List select_t) (i : Nat) (p : Payload) (heap : Heap),
      unsubscribe_all heap h (store_data L i p) = unsubscribe_all heap h L := by
  intro L
  induction L with
  | nil => intro i p heap; rfl
  | cons d rest ih =>
    intro i p heap
    cases i with
    | zero => simp [store_data, unsubscribe_all]
    | succ k =>
      simp only [store_data, unsubscribe_all]
      split
      · rfl
      · exact ih k p _

theorem unsubscribe_all_store_slot (h : Handle) (L : List select_t) (i : Nat)
    (s : Option Payload) (heap : Heap) :
    unsubscribe_all heap h (store_slot L i s) = unsubscribe_all heap h L := by
  cases s with
  | none => rfl
  | some p => exact unsubscribe_all_store_data h L i p heap

/-- A scan over descriptors that all return WOULDBLOCK ends in the wait. -/
theorem select_scan_waits (h : Handle) (L : List select_t) :
    ∀ (rest : List select_t) (heap : Heap) (i : Nat) (posted : List Handle),
      (∀ x ∈ rest, ∃ r, attempt heap x = Except.ok r ∧ r.status = WOULDBLOCK) →
      select_scan h L heap i rest posted = Except.error Halt.waits := by
  intro rest
  induction rest with
  | nil => intro heap i posted _; rfl
  | cons d rest ih =>
    intro heap i posted hall
    obtain ⟨r, hr, hw⟩ := hall d (List.mem_cons_self _ _)
    obtain ⟨r1, hr1, hcase⟩ := attempt_cases heap d
    rw [hr] at hr1
    injection hr1 with hr1
    subst hr1
    rcases hcase with ⟨_, e1, e2, _, _⟩ | ⟨e, _⟩ | ⟨e, _⟩
    · simp only [select_scan, hr, hw, reduceCtorEq, or_self, if_false, e1, e2,
        Function.update_eq_self, List.append_nil]
      exact ih heap (i + 1) posted (fun x hx => hall x (List.mem_cons_of_mem _ hx))
    · rw [hw] at e; cases e
    · rw [hw] at e; cases e

/-- A scan returns at the first descriptor whose attempt does not return
WOULDBLOCK, with the effect of that attempt alone. -/
theorem select_scan_first (h : Handle) (L : List select_t) :
    ∀ (pre : List select_t) (d : select_t) (post : List select_t) (heap : Heap)
      (i : Nat) (posted : List Handle) (r : chan_result),
      (∀ x ∈ pre, ∃ rx, attempt heap x = Except.ok rx ∧ rx.status = WOULDBLOCK) →
      attempt heap d = Except.ok r → r.status ≠ WOULDBLOCK →
      select_scan h L heap i (pre ++ d :: post) posted =
        select_return h (Function.update heap d.channel r.channel)
          (store_slot L (i + pre.length) r.stored) (i + pre.length) r.status
          (posted ++ r.signals) := by
  intro pre
  induction pre with
  | nil =>
    intro d post heap i posted r _ hr hnw
    obtain ⟨r1, hr1, hcase⟩ := attempt_cases heap d
    rw [hr] at hr1
    injection hr1 with hr1
    subst hr1
    have hst : r.status = SUCCESS ∨ r.status = CLOSED_ERROR ∨ r.status = OTHER_ERROR := by
      rcases hcase with ⟨e, _⟩ | ⟨e, _⟩ | ⟨e, _⟩
      · exact absurd e hnw
      · exact Or.inr (Or.inl e)
      · exact Or.inl e
    simp only [List.nil_append, select_scan, hr, hst, if_true, List.length_nil, Nat.add_zero]
  | cons x pre ih =>
    intro d post heap i posted r hall hr hnw
    obtain ⟨rx, hrx, hw⟩ := hall x (List.mem_cons_self _ _)
    obtain ⟨r1, hr1, hcase⟩ := attempt_cases heap x
    rw [hrx] at hr1
    injection hr1 with hr1
    subst hr1
    rcases hcase with ⟨_, e1, e2, _, _⟩ | ⟨e, _⟩ | ⟨e, _⟩
    · simp only [List.cons_append, select_scan, hrx, hw, reduceCtorEq, or_self, if_false,
        e1, e2, Function.update_eq_self, List.append_nil, List.length_cons]
      have step := ih d post heap (i + 1) posted r
        (fun y hy => hall y (List.mem_cons_of_mem _ hy)) hr hnw
      have e3 : i + 1 + pre.length = i + (pre.length + 1) := by omega
      rw [e3] at step
      exact step
    · rw [hw] at e; cases e
    · rw [hw] at e; cases e

/-- Either every descriptor returns WOULDBLOCK or there is a first one that
does not. -/
theorem scan_split (heap : Heap) :
    ∀ rest : List select_t,
      (∀ x ∈ rest, ∃ r, attempt heap x = Except.ok r ∧ r.status = WOULDBLOCK) ∨
      ∃ pre d post r, rest = pre ++ d :: post ∧
        (∀ x ∈ pre, ∃ rx, attempt heap x = Except.ok rx ∧ rx.status = WOULDBLOCK) ∧
        attempt heap d = Except.ok r ∧ r.status ≠ WOULDBLOCK := by
  intro rest
  induction rest with
  | nil => left; intro x hx; cases hx
  | cons d rest ih =>
    obtain ⟨r, hr, _⟩ := attempt_cases heap d
    by_cases hw : r.status = WOULDBLOCK
    · rcases ih with hall | ⟨pre, d1, post, r1, e, h1, h2, h3⟩
      · left
        intro x hx
        rcases List.mem_cons.mp hx with e | e
        · subst e; exact ⟨r, hr, hw⟩
        · exact hall x e
      · right
        refine ⟨d :: pre, d1, post, r1, by simp [e], ?_, h2, h3⟩
        intro x hx
        rcases List.mem_cons.mp hx with e | e
        · subst e; exact ⟨r, hr, hw⟩
        · exact h1 x e
    · right
      exact ⟨[], d, rest, r, rfl, (fun x hx => by cases hx), hr, hw⟩

theorem core_update (heap : Heap) (ch0 ch : ChanId) (c1 c2 : chan_t)
    (h : core c1 = core c2) :
    core (Function.update heap ch0 c1 ch) = core (Function.update heap ch0 c2 ch) := by
  by_cases e : ch = ch0
  · subst e; simpa using h
  · simp [Function.update_noteq e]

theorem wouldblock_transfer (heap1 heap2 : Heap)
    (hcore : ∀ ch, core (heap1 ch) = core (heap2 ch)) (l : List select_t)
    (hall : ∀ x ∈ l, ∃ r, attempt heap1 x = Except.ok r ∧ r.status = WOULDBLOCK) :
    ∀ x ∈ l, ∃ r, attempt heap2 x = Except.ok r ∧ r.status = WOULDBLOCK := by
  intro x hx
  obtain ⟨r, hr, hw⟩ := hall x hx
  obtain ⟨r2, h2, e, _, _⟩ := attempt_congr heap1 heap2 x (hcore x.channel) r hr
  exact ⟨r2, h2, by rw [e, hw]⟩

/-- The whole of `channel_select` when a first ready descriptor exists. -/
theorem channel_select_first (heap : Heap) (h : Handle) (pre : List select_t)
    (d : select_t) (post : List select_t) (r0 : chan_result)
    (hpre : ∀ x ∈ pre, ∃ rx, attempt heap x = Except.ok rx ∧ rx.status = WOULDBLOCK)
    (hd : attempt heap d = Except.ok r0) (hnw : r0.status ≠ WOULDBLOCK) :
    ∃ res r, channel_select heap (pre ++ d :: post) h = Except.ok res ∧
      attempt (subscribe_all heap h (pre ++ d :: post)) d = Except.ok r ∧
      r.status = r0.status ∧ core r.channel = core r0.channel ∧ r.stored = r0.stored ∧
      res.status = r0.status ∧ res.selected_index = pre.length ∧
      res.channel_list = store_slot (pre ++ d :: post) pre.length r0.stored ∧
      res.signals = r.signals ∧
      (∀ ch, core (res.heap ch) = core (Function.update heap d.channel r0.channel ch)) ∧
      (∀ ch dir, own_count res.heap h ch dir = own_count heap h ch dir) := by
  have hsub := subscribe_all_core h (pre ++ d :: post) heap
  have hpre1 := wouldblock_transfer heap (subscribe_all heap h (pre ++ d :: post))
    (fun ch => (hsub ch).symm) pre hpre
  obtain ⟨r, hr, e1, e2, e3⟩ := attempt_congr heap
    (subscribe_all heap h (pre ++ d :: post)) d (hsub d.channel).symm r0 hd
  have hnw1 : r.status ≠ WOULDBLOCK := by rw [e1]; exact hnw
  have hscan := select_scan_first h (pre ++ d :: post) pre d post
    (subscribe_all heap h (pre ++ d :: post)) 0 [] r hpre1 hr hnw1
  have hw : ∀ dir, waiters r.channel dir =
      waiters (subscribe_all heap h (pre ++ d :: post) d.channel) dir := by
    obtain ⟨r1, hr1, hcase⟩ := attempt_cases (subscribe_all heap h (pre ++ d :: post)) d
    rw [hr] at hr1
    injection hr1 with hr1
    subst hr1
    rcases hcase with ⟨_, e, _⟩ | ⟨_, e, _⟩ | ⟨_, _, e, _⟩
    · intro dir; rw [e]
    · intro dir; rw [e]
    · exact e
  have hcnt : ∀ ch dir,
      own_count (Function.update (subscribe_all heap h (pre ++ d :: post)) d.channel
        r.channel) h ch dir =
      own_count heap h ch dir + need (pre ++ d :: post) ch dir := by
    intro ch dir
    rw [own_count_update, ← subscribe_all_count]
    by_cases e : ch = d.channel
    · subst e; simp [own_count, hw]
    · simp [e]
  obtain ⟨heap1, f1, f2, f3⟩ := unsubscribe_all_ok h (pre ++ d :: post)
    (Function.update (subscribe_all heap h (pre ++ d :: post)) d.channel r.channel)
    (fun ch dir => by rw [hcnt]; omega)
  refine ⟨{ status := r.status, selected_index := pre.length, heap := heap1
            channel_list := store_slot (pre ++ d :: post) pre.length r.stored
            signals := r.signals }, r, ?_, hr, e1, e2, e3, e1, rfl, by rw [e3], rfl, ?_, ?_⟩
  · unfold channel_select
    rw [hscan]
    simp [select_return, unsubscribe_all_store_slot, f1]
  · intro ch
    show core (heap1 ch) = _
    rw [f2 ch]
    by_cases e : ch = d.channel
    · subst e; simpa using e2
    · simp [Function.update_noteq e, hsub]
  · intro ch dir
    show own_count heap1 h ch dir = _
    have a := f3 ch dir
    have b := hcnt ch dir
    omega

/-- When every attempt returns WOULDBLOCK the select sleeps. -/
theorem channel_select_waits (heap : Heap) (h : Handle) (L : List select_t)
    (hall : ∀ x ∈ L, ∃ r, attempt heap x = Except.ok r ∧ r.status = WOULDBLOCK) :
    channel_select heap L h = Except.error Halt.waits := by
  have hsub := subscribe_all_core h L heap
  exact select_scan_waits h L L _ 0 [] (wouldblock_transfer heap _
    (fun ch => (hsub ch).symm) L hall)

theorem store_data_append (pre : List select_t) (d : select_t) (post : List select_t)
    (p : Payload) :
    store_data (pre ++ d :: post) pre.length p = pre ++ { d with data := p } :: post := by
  induction pre with
  | nil => rfl
  | cons x pre ih => simp [store_data, ih]

theorem wouldblock_frame (heap : Heap) (x : select_t) (rx : chan_result)
    (hr : attempt heap x = Except.ok rx) (hw : rx.status = WOULDBLOCK) :
    rx.channel = heap x.channel ∧ rx.signals = [] ∧ rx.stored = none := by
  obtain ⟨r1, hr1, hcase⟩ := attempt_cases heap x
  rw [hr] at hr1
  injection hr1 with hr1
  subst hr1
  rcases hcase with ⟨_, e1, e2, e3, _⟩ | ⟨e, _⟩ | ⟨e, _⟩
  · exact ⟨e1, e2, e3⟩
  · rw [hw] at e; cases e
  · rw [hw] at e; cases e

/-! ### The thread-level layer -/

/-- A blocking send that runs alone to its return does what the call-level
`channel_send` says. -/
theorem alone_send_agrees (c : chan_t) (p : Payload) (r : chan_result)
    (hr : channel_send c p true = Except.ok r) :
    schedule (alone c { is_send := true, data := p, pc := Pc.sem_wait })
        (List.replicate 9 0) =
      { channel := r.channel, bmutex := false, lmutex := false
        threads := [{ is_send := true, data := p, pc := Pc.returned r.status }]
        posted := r.signals } := by
  obtain ⟨buf, cl, snd, rcv, sl, rl⟩ := c
  rw [channel_send_eq] at hr
  cases snd with
  | zero => simp at hr
  | succ k =>
    cases cl <;> simp at hr <;> subst hr <;>
      simp [schedule, step, thread_step, alone, sem_wait, signal_all]

/-- A blocking receive that runs alone to its return does what the call-level
`channel_receive` says, the payload being in the slot of the thread. -/
theorem alone_receive_agrees (c : chan_t) (slot : Payload) (r : chan_result)
    (hr : channel_receive c true = Except.ok r) :
    schedule (alone c { is_send := false, data := slot, pc := Pc.sem_wait })
        (List.replicate 9 0) =
      { channel := r.channel, bmutex := false, lmutex := false
        threads := [{ is_send := false, data := r.stored.getD slot
                      pc := Pc.returned r.status }]
        posted := r.signals } := by
  obtain ⟨buf, cl, snd, rcv, sl, rl⟩ := c
  rw [channel_receive_eq] at hr
  cases rcv with
  | zero => simp at hr
  | succ k =>
    cases cl <;> simp at hr <;> subst hr <;>
      simp [schedule, step, thread_step, alone, sem_wait, signal_all]

/-- On a channel of capacity 1 the two threads of scenario 2 do complete: the
sender runs first, then the receiver, and the receiver obtains X. -/
theorem rendezvous_capacity_one_completes (X : Payload) :
    schedule (rendezvous 1 X) (List.replicate 9 1 ++ List.replicate 9 0) =
      { channel := channel_create 1, bmutex := false, lmutex := false
        threads := [{ is_send := false, data := X, pc := Pc.returned SUCCESS },
                    { is_send := true, data := X, pc := Pc.returned SUCCESS }]
        posted := [] } := by
  have h0 : sem_post 0 = 1 := rfl
  have h1 : sem_init (1 % UINT_RANGE) = 1 := rfl
  simp [schedule, step, thread_step, rendezvous, channel_create, sem_wait, h0, h1,
    sem_init_zero, signal_all, buffer_create, buffer_add, buffer_remove, list_create]

/-- Where every thread is at its `sem_wait` and both semaphores are 0, no
thread can move. -/
theorem stuck_step (cfg : Config) (hs : cfg.channel.sender = 0)
    (hr : cfg.channel.receiver = 0) (hall : ∀ t ∈ cfg.threads, t.pc = Pc.sem_wait)
    (tid : Nat) : step cfg tid = cfg := by
  unfold step
  cases ht : cfg.threads[tid]? with
  | none => rfl
  | some t =>
    have hm : t ∈ cfg.threads := List.getElem?_mem ht
    have hpc := hall t hm
    simp only []
    have : thread_step cfg t = none := by
      unfold thread_step
      simp only [hpc, hs, hr, sem_wait]
      cases t.is_send <;> simp
    rw [this]

theorem stuck_schedule (cfg : Config) (hs : cfg.channel.sender = 0)
    (hr : cfg.channel.receiver = 0) (hall : ∀ t ∈ cfg.threads, t.pc = Pc.sem_wait)
    (sched : List Nat) : schedule cfg sched = cfg := by
  induction sched with
  | nil => rfl
  | cons tid rest ih =>
    simp only [schedule]
    rw [stuck_step cfg hs hr hall tid]
    exact ih

/-! ### Return statuses -/

theorem send_status_cases (c : chan_t) (p : Payload) (b : Bool) (r : chan_result)
    (hr : channel_send c p b = Except.ok r) :
    r.status = SUCCESS ∨ r.status = CLOSED_ERROR ∨ (b = false ∧ r.status = WOULDBLOCK) := by
  rw [channel_send_eq] at hr
  by_cases h0 : c.sender = 0 <;> cases b <;> cases hc : c.closed <;>
    simp [h0, hc] at hr <;> subst hr <;> simp

theorem receive_status_cases (c : chan_t) (b : Bool) (r : chan_result)
    (hr : channel_receive c b = Except.ok r) :
    r.status = SUCCESS ∨ r.status = CLOSED_ERROR ∨ (b = false ∧ r.status = WOULDBLOCK) := by
  rw [channel_receive_eq] at hr
  by_cases h0 : c.receiver = 0 <;> cases b <;> cases hc : c.closed <;>
    simp [h0, hc] at hr <;> subst hr <;> simp

theorem select_status_cases (heap : Heap) (L : List select_t) (h : Handle)
    (res : select_result) (hsel : channel_select heap L h = Except.ok res) :
    res.status = SUCCESS ∨ res.status = CLOSED_ERROR := by
  rcases scan_split heap L with hall | ⟨pre, d, post, r0, e, h1, h2, h3⟩
  · rw [channel_select_waits heap h L hall] at hsel
    cases hsel
  · obtain ⟨res1, r, g1, _, _, _, _, g6, _⟩ :=
      channel_select_first heap h pre d post r0 h1 h2 h3
    rw [← e, hsel] at g1
    injection g1 with g1
    subst g1
    rw [g6]
    obtain ⟨r1, hr1, hcase⟩ := attempt_cases heap d
    rw [h2] at hr1
    injection hr1 with hr1
    subst hr1
    rcases hcase with ⟨e1, _⟩ | ⟨e1, _⟩ | ⟨e1, _⟩
    · exact absurd e1 h3
    · exact Or.inr e1
    · exact Or.inl e1

/-! ### Subscription and its undoing -/

theorem need_append (pre rest : List select_t) (ch : ChanId) (dir : Bool) :
    need (pre ++ rest) ch dir = need pre ch dir + need rest ch dir := by
  simp [need]

theorem size_succ_mod (a : Nat) :
    ((a % SIZE_RANGE) + 1) % SIZE_RANGE = (a + 1) % SIZE_RANGE := by
  unfold SIZE_RANGE; omega

theorem size_pred_mod (a : Nat) :
    ((a + 1) % SIZE_RANGE + SIZE_RANGE - 1) % SIZE_RANGE = a % SIZE_RANGE := by
  unfold SIZE_RANGE; omega

theorem waiters_update (heap : Heap) (ch0 ch : ChanId) (c1 : chan_t) (dir : Bool) :
    waiters (Function.update heap ch0 c1 ch) dir =
      if ch = ch0 then waiters c1 dir else waiters (heap ch) dir := by
  by_cases e : ch = ch0
  · subst e; simp
  · simp [Function.update_noteq e, e]

/-- The subscribe loop puts one node with the handle in front of each list per
descriptor that names it. -/
theorem subscribe_all_shape (h : Handle) (orig : ChanId → Bool → list_t) :
    ∀ (L : List select_t) (heap : Heap) (m : ChanId → Bool → Nat),
      (∀ ch dir,
        (waiters (heap ch) dir).head = List.replicate (m ch dir) h ++ (orig ch dir).head ∧
        ((orig ch dir).count < SIZE_RANGE →
          (waiters (heap ch) dir).count = ((orig ch dir).count + m ch dir) % SIZE_RANGE)) →
      ∀ ch dir,
        (waiters (subscribe_all heap h L ch) dir).head =
          List.replicate (m ch dir + need L ch dir) h ++ (orig ch dir).head ∧
        ((orig ch dir).count < SIZE_RANGE →
          (waiters (subscribe_all heap h L ch) dir).count =
            ((orig ch dir).count + (m ch dir + need L ch dir)) % SIZE_RANGE) := by
  intro L
  induction L with
  | nil =>
    intro heap m hm ch dir
    simpa [subscribe_all, need] using hm ch dir
  | cons d rest ih =>
    intro heap m hm ch dir
    simp only [subscribe_all]
    have key := ih
      (Function.update heap d.channel (subscribe_one (heap d.channel) d.is_send h))
      (fun ch dir => m ch dir + (if d.channel = ch ∧ d.is_send = dir then 1 else 0))
      (by
        intro ch1 dir1
        rw [waiters_update]
        obtain ⟨a1, a2⟩ := hm ch1 dir1
        by_cases hc : ch1 = d.channel
        · subst hc
          rw [if_pos rfl, waiters_subscribe]
          by_cases hd : dir1 = d.is_send
          · subst hd
            simp only [if_true, and_self, list_insert, a1]
            refine ⟨by simp [List.replicate_succ], ?_⟩
            intro hwf
            rw [a2 hwf, size_succ_mod]
            rfl
          · have hd2 : ¬ (d.is_send = dir1) := fun e => hd e.symm
            simp only [hd, hd2, if_false, and_false, Nat.add_zero]
            exact ⟨a1, a2⟩
        · have hc1 : ¬ (d.channel = ch1) := fun e => hc e.symm
          simp only [hc, hc1, if_false, false_and, Nat.add_zero]
          exact ⟨a1, a2⟩)
      ch dir
    rw [need_cons]
    have e : m ch dir + ((if d.channel = ch ∧ d.is_send = dir then 1 else 0) + need rest ch dir)
        = m ch dir + (if d.channel = ch ∧ d.is_send = dir then 1 else 0) + need rest ch dir := by
      omega
    rw [e]
    exact key

theorem subscribe_all_subscribed (h : Handle) (heap : Heap) (L : List select_t) :
    Subscribed h (fun ch dir => waiters (heap ch) dir) L (subscribe_all heap h L) := by
  intro ch dir
  have key := subscribe_all_shape h (fun ch dir => waiters (heap ch) dir) L heap
    (fun _ _ => 0)
    (by
      intro ch1 dir1
      refine ⟨by simp, ?_⟩
      intro hwf
      simp [Nat.mod_eq_of_lt hwf])
    ch dir
  simpa using key

theorem unsubscribe_one_head (c : chan_t) (dir : Bool) (h : Handle) (tl : List Handle)
    (hd : (waiters c dir).head = h :: tl) :
    ∃ c1, unsubscribe_one c dir h = Except.ok c1 ∧ core c1 = core c ∧
      list_find (waiters c dir) h = some 0 ∧
      waiters c1 dir =
        { head := tl, count := ((waiters c dir).count + SIZE_RANGE - 1) % SIZE_RANGE } ∧
      waiters c1 (!dir) = waiters c (!dir) := by
  cases dir
  · simp only [waiters, Bool.false_eq_true, if_false] at hd
    refine ⟨{ c with receive_list :=
                { head := tl
                  count := (c.receive_list.count + SIZE_RANGE - 1) % SIZE_RANGE } },
      ?_, rfl, ?_, rfl, rfl⟩
    · simp [unsubscribe_one, list_remove, list_find, find_node, hd]
    · simp [waiters, list_find, find_node, hd]
  · simp only [waiters, if_true] at hd
    refine ⟨{ c with send_list :=
                { head := tl
                  count := (c.send_list.count + SIZE_RANGE - 1) % SIZE_RANGE } },
      ?_, rfl, ?_, rfl, rfl⟩
    · simp [unsubscribe_one, list_remove, list_find, find_node, hd]
    · simp [waiters, list_find, find_node, hd]

/-- The unsubscribe loop over a first part of the descriptors finds the handle
at the head of the list at every step and leaves the subscription of the
remaining descriptors. -/
theorem unsubscribe_all_shape (h : Handle) (orig : ChanId → Bool → list_t) :
    ∀ (pre rest : List select_t) (heap : Heap),
      Subscribed h orig (pre ++ rest) heap →
      ∃ heap1, unsubscribe_all heap h pre = Except.ok heap1 ∧
        Subscribed h orig rest heap1 ∧ ∀ ch, core (heap1 ch) = core (heap ch) := by
  intro pre
  induction pre with
  | nil =>
    intro rest heap hs
    exact ⟨heap, rfl, by simpa using hs, fun _ => rfl⟩
  | cons d pre ih =>
    intro rest heap hs
    obtain ⟨a1, a2⟩ := hs d.channel d.is_send
    simp only [List.cons_append, need_cons, and_self, if_true] at a1 a2
    have hhd : (waiters (heap d.channel) d.is_send).head =
        h :: (List.replicate (need (pre ++ rest) d.channel d.is_send) h ++
          (orig d.channel d.is_send).head) := by
      rw [a1, Nat.add_comm, List.replicate_succ, List.cons_append]
    obtain ⟨c1, e1, e2, _, e4, e5⟩ := unsubscribe_one_head (heap d.channel) d.is_send h _ hhd
    have hs1 : Subscribed h orig (pre ++ rest) (Function.update heap d.channel c1) := by
      intro ch dir
      rw [waiters_update]
      obtain ⟨b1, b2⟩ := hs ch dir
      simp only [List.cons_append, need_cons] at b1 b2
      by_cases hc : ch = d.channel
      · subst hc
        rw [if_pos rfl]
        by_cases hdir : dir = d.is_send
        · subst hdir
          rw [e4]
          refine ⟨rfl, ?_⟩
          intro hwf
          show ((waiters (heap d.channel) d.is_send).count + SIZE_RANGE - 1) % SIZE_RANGE = _
          rw [a2 hwf]
          have e : (orig d.channel d.is_send).count +
              (1 + need (pre ++ rest) d.channel d.is_send) =
              (orig d.channel d.is_send).count +
                need (pre ++ rest) d.channel d.is_send + 1 := by omega
          rw [e, size_pred_mod]
        · have hd1 : dir = !d.is_send := by
            cases dir <;> cases hq : d.is_send <;> simp_all
          have hd2 : ¬ (d.is_send = dir) := fun e => hdir e.symm
          simp only [hd2, and_false, if_false, Nat.zero_add] at b1 b2
          rw [hd1, e5, ← hd1]
          exact ⟨b1, b2⟩
      · have hc1 : ¬ (d.channel = ch) := fun e => hc e.symm
        simp only [hc1, false_and, if_false, Nat.zero_add] at b1 b2
        rw [if_neg hc]
        exact ⟨b1, b2⟩
    obtain ⟨heap1, f1, f2, f3⟩ := ih rest (Function.update heap d.channel c1) hs1
    refine ⟨heap1, by simp [unsubscribe_all, e1, f1], f2, ?_⟩
    intro ch
    rw [f3 ch]
    by_cases hc : ch = d.channel
    · subst hc; simp [e2]
    · simp [Function.update_noteq hc]

/-- An attempt leaves both waiter lists of its channel as they were. -/
theorem attempt_waiters (heap : Heap) (d : select_t) (r : chan_result)
    (hr : attempt heap d = Except.ok r) (dir : Bool) :
    waiters r.channel dir = waiters (heap d.channel) dir := by
  obtain ⟨r1, hr1, hcase⟩ := attempt_cases heap d
  rw [hr] at hr1
  injection hr1 with hr1
  subst hr1
  rcases hcase with ⟨_, e, _⟩ | ⟨_, e, _⟩ | ⟨_, _, e, _⟩
  · rw [e]
  · rw [e]
  · exact e dir

/-- When `channel_select` returns, the unsubscribe loop has run on a heap
whose waiter lists are those the subscribe loop left. -/
theorem channel_select_return_heap (heap : Heap) (L : List select_t) (h : Handle)
    (res : select_result) (hsel : channel_select heap L h = Except.ok res) :
    ∃ H, (∀ ch dir, waiters (H ch) dir = waiters (subscribe_all heap h L ch) dir) ∧
      unsubscribe_all H h L = Except.ok res.heap := by
  unfold channel_select at hsel
  rcases scan_split (subscribe_all heap h L) L with hall | ⟨pre, d, post, r, e, h1, h2, h3⟩
  · rw [select_scan_waits h L L _ 0 [] hall] at hsel
    cases hsel
  · have hscan := select_scan_first h L pre d post (subscribe_all heap h L) 0 [] r h1 h2 h3
    rw [← e] at hscan
    rw [hscan] at hsel
    unfold select_return at hsel
    rw [unsubscribe_all_store_slot] at hsel
    refine ⟨Function.update (subscribe_all heap h L) d.channel r.channel, ?_, ?_⟩
    · intro ch dir
      rw [waiters_update]
      by_cases hc : ch = d.channel
      · subst hc
        rw [if_pos rfl]
        exact attempt_waiters _ d r h2 dir
      · rw [if_neg hc]
    · split at hsel
      · cases hsel
      · rename_i heap1 hu
        injection hsel with hsel
        subst hsel
        exact hu

theorem channel_select_no_fault (heap : Heap) (L : List select_t) (h : Handle) :
    channel_select heap L h ≠ Except.error Halt.fault := by
  rcases scan_split heap L with hall | ⟨pre, d, post, r0, e, h1, h2, h3⟩
  · rw [channel_select_waits heap h L hall]
    intro hne
    cases hne
  · obtain ⟨res, _, g1, _⟩ := channel_select_first heap h pre d post r0 h1 h2 h3
    rw [e, g1]
    intro hne
    cases hne

theorem subscribed_congr (h : Handle) (orig : ChanId → Bool → list_t)
    (L : List select_t) (H1 H2 : Heap)
    (hw : ∀ ch dir, waiters (H2 ch) dir = waiters (H1 ch) dir)
    (hs : Subscribed h orig L H1) : Subscribed h orig L H2 := by
  intro ch dir
  rw [hw ch dir]
  exact hs ch dir

/-! ### The list at the level of pointers -/

namespace Ptr

theorem seg_frame (mem mem1 : NodeMem) :
    ∀ (ps : List Nat) (prev p : Nat), (∀ a ∈ ps, mem1 a = mem a) →
      Seg mem prev p ps → Seg mem1 prev p ps := by
  intro ps
  induction ps with
  | nil => intro prev p _ hs; exact hs
  | cons a rest ih =>
    intro prev p hf hs
    obtain ⟨e, hne, n, hn, hp, hrest⟩ := hs
    refine ⟨e, hne, n, ?_, hp, ih a n.next (fun x hx => hf x (List.mem_cons_of_mem _ hx)) hrest⟩
    rw [hf a (List.mem_cons_self _ _)]
    exact hn

theorem seg_allocated (mem : NodeMem) :
    ∀ (ps : List Nat) (prev p : Nat), Seg mem prev p ps →
      ∀ a ∈ ps, a ≠ NULL ∧ ∃ n, mem a = some n := by
  intro ps
  induction ps with
  | nil => intro prev p _ a ha; cases ha
  | cons x rest ih =>
    intro prev p hs a ha
    obtain ⟨_, hne, n, hn, _, hrest⟩ := hs
    rcases List.mem_cons.mp ha with e | e
    · subst e; exact ⟨hne, n, hn⟩
    · exact ih x n.next hrest a e

/-- Distinct non-null addresses below a bound are fewer than the bound. -/
theorem length_lt_of_nodup (N : Nat) (l : List Nat) (hnd : l.Nodup)
    (hb : ∀ a ∈ l, a ≠ 0 ∧ a < N) : l.length + 1 ≤ N ∨ l = [] := by
  cases l with
  | nil => right; rfl
  | cons x rest =>
    left
    have hsub : (x :: rest).toFinset ⊆ Finset.Ico 1 N := by
      intro a ha
      rw [List.mem_toFinset] at ha
      obtain ⟨h1, h2⟩ := hb a ha
      rw [Finset.mem_Ico]
      omega
    have hcard := Finset.card_le_card hsub
    rw [List.toFinset_card_of_nodup hnd, Nat.card_Ico] at hcard
    have hx := hb x (List.mem_cons_self _ _)
    omega

theorem contents_cons (mem : NodeMem) (a : Nat) (rest : List Nat) (n : list_node_t)
    (hn : mem a = some n) : contents mem (a :: rest) = n.data :: contents mem rest := by
  simp [contents, data_at, hn]

theorem contents_frame (mem mem1 : NodeMem) (ps : List Nat)
    (hf : ∀ a ∈ ps, mem1 a = mem a) : contents mem1 ps = contents mem ps := by
  unfold contents
  apply List.map_congr_left
  intro a ha
  simp [data_at, hf a ha]

/-- The function `list_insert` on a well formed list, with a fresh address:
it returns, the list is well formed with the new node in front of the others,
and the data of the others is what it was. -/
theorem list_insert_wf (mem : NodeMem) (list : list_t) (ps : List Nat) (h : Handle)
    (a : Nat) (hwf : WF mem list ps) (ha0 : a ≠ NULL) (hal : a < SIZE_RANGE)
    (hfresh : mem a = none) :
    ∃ mem1 list1, list_insert mem list h a = Except.ok (mem1, list1) ∧
      WF mem1 list1 (a :: ps) ∧ list1.head = a ∧
      mem1 a = some { data := h, prev := NULL, next := list.head } ∧
      contents mem1 (a :: ps) = h :: contents mem ps := by
  obtain ⟨lhead, lcount⟩ := list
  obtain ⟨hseg, hcount, hnd, hrange⟩ := hwf
  simp only at hseg hcount ⊢
  have halloc := seg_allocated mem ps NULL lhead hseg
  have hnotin : a ∉ ps := by
    intro hin
    obtain ⟨_, n, hn⟩ := halloc a hin
    rw [hfresh] at hn
    cases hn
  have hnd1 : (a :: ps).Nodup := List.nodup_cons.mpr ⟨hnotin, hnd⟩
  have hrange1 : ∀ x ∈ a :: ps, x < SIZE_RANGE := by
    intro x hx
    rcases List.mem_cons.mp hx with e | e
    · rw [e]; exact hal
    · exact hrange x e
  have hlen : (a :: ps).length + 1 ≤ SIZE_RANGE := by
    rcases length_lt_of_nodup SIZE_RANGE (a :: ps) hnd1
      (fun x hx => by
        rcases List.mem_cons.mp hx with e | e
        · rw [e]; exact ⟨ha0, hal⟩
        · exact ⟨(halloc x e).1, hrange x e⟩) with hl | hl
    · exact hl
    · cases hl
  have hcount1 : (lcount + 1) % SIZE_RANGE = (a :: ps).length := by
    rw [hcount]
    simp only [List.length_cons] at hlen ⊢
    exact Nat.mod_eq_of_lt (by omega)
  cases ps with
  | nil =>
    have hhead : lhead = NULL := hseg
    subst hhead
    refine ⟨Function.update mem a (some { data := h, prev := NULL, next := NULL }),
      { head := a, count := (lcount + 1) % SIZE_RANGE }, ?_, ?_, rfl, by simp, ?_⟩
    · simp [list_insert, ha0]
    · exact ⟨⟨rfl, ha0, { data := h, prev := NULL, next := NULL }, by simp, rfl, rfl⟩,
        hcount1, hnd1, hrange1⟩
    · simp [contents, data_at]
  | cons b rest =>
    obtain ⟨hb, hb0, nb, hnb, hbp, hrest⟩ := hseg
    have hab : a ≠ b := fun e => hnotin (by rw [e]; exact List.mem_cons_self _ _)
    have hba : b ≠ a := fun e => hab e.symm
    have hbrest : b ∉ rest := (List.nodup_cons.mp hnd).1
    subst hb
    refine ⟨Function.update
        (Function.update mem a (some { data := h, prev := NULL, next := lhead }))
        lhead (some { nb with prev := a }),
      { head := a, count := (lcount + 1) % SIZE_RANGE }, ?_, ?_, rfl, ?_, ?_⟩
    · simp [list_insert, ha0, hb0, Function.update_noteq hba, hnb]
    · refine ⟨⟨rfl, ha0, { data := h, prev := NULL, next := lhead }, ?_, rfl, ?_⟩,
        hcount1, hnd1, hrange1⟩
      · simp [Function.update_noteq hab]
      · refine ⟨rfl, hb0, { nb with prev := a }, by simp, rfl, ?_⟩
        apply seg_frame mem _ rest lhead nb.next _ hrest
        intro x hx
        have hxb : x ≠ lhead := fun e => hbrest (by rw [← e]; exact hx)
        have hxa : x ≠ a := fun e =>
          hnotin (by rw [← e]; exact List.mem_cons_of_mem _ hx)
        simp [Function.update_noteq hxb, Function.update_noteq hxa]
    · simp [Function.update_noteq hab]
    · have e1 : contents
          (Function.update
            (Function.update mem a (some { data := h, prev := NULL, next := lhead }))
            lhead (some { nb with prev := a })) (a :: lhead :: rest) =
          h :: nb.data :: contents mem rest := by
        rw [contents_cons _ a _ { data := h, prev := NULL, next := lhead }
              (by simp [Function.update_noteq hab]),
            contents_cons _ lhead _ { nb with prev := a } (by simp)]
        congr 2
        apply contents_frame
        intro x hx
        have hxb : x ≠ lhead := fun e => hbrest (by rw [← e]; exact hx)
        have hxa : x ≠ a := fun e =>
          hnotin (by rw [← e]; exact List.mem_cons_of_mem _ hx)
        simp [Function.update_noteq hxb, Function.update_noteq hxa]
      rw [e1, contents_cons mem lhead rest nb hnb]

/-- The links of a node inside a chain. -/
theorem seg_links (mem : NodeMem) (node : Nat) (post : List Nat) :
    ∀ (pre : List Nat) (prev p : Nat), Seg mem prev p (pre ++ node :: post) →
      ∃ n, mem node = some n ∧ node ≠ NULL ∧ Seg mem node n.next post ∧
        (pre = [] → n.prev = prev ∧ p = node) ∧
        (pre ≠ [] → n.prev ∈ pre ∧ n.prev ≠ NULL) := by
  intro pre
  induction pre with
  | nil =>
    intro prev p hs
    obtain ⟨e, hne, n, hn, hp, hrest⟩ := hs
    exact ⟨n, hn, hne, hrest, fun _ => ⟨hp, e⟩, fun hc => absurd rfl hc⟩
  | cons x pre ih =>
    intro prev p hs
    obtain ⟨_, hx0, nx, _, _, hrest⟩ := hs
    obtain ⟨n, hn, hne, hpost, h1, h2⟩ := ih x nx.next hrest
    refine ⟨n, hn, hne, hpost, (fun hc => by cases hc), fun _ => ?_⟩
    by_cases hpre : pre = []
    · obtain ⟨e, _⟩ := h1 hpre
      rw [e]
      exact ⟨List.mem_cons_self _ _, hx0⟩
    · obtain ⟨hm, h0⟩ := h2 hpre
      exact ⟨List.mem_cons_of_mem _ hm, h0⟩

theorem seg_next (mem : NodeMem) (prev p : Nat) (post : List Nat)
    (hs : Seg mem prev p post) : p = NULL ∧ post = [] ∨ p ≠ NULL ∧ post.head? = some p := by
  cases post with
  | nil => left; exact ⟨hs, rfl⟩
  | cons b rest =>
    right
    obtain ⟨e, hne, _⟩ := hs
    rw [e]
    exact ⟨hne, rfl⟩

/-- The chain without one of its nodes, in a memory where the node is gone and
its two neighbours are linked to each other. -/
theorem seg_remove (mem mem3 : NodeMem) (node : Nat) (n : list_node_t)
    (post : List Nat) (hn : mem node = some n)
    (F2 : ∀ a, a ≠ node → a ≠ n.prev → a ≠ n.next → mem3 a = mem a)
    (F3 : ∀ q, n.prev ≠ NULL → mem n.prev = some q →
      mem3 n.prev = some { q with next := n.next })
    (F4 : ∀ q, n.next ≠ NULL → mem n.next = some q →
      mem3 n.next = some { q with prev := n.prev }) :
    ∀ (pre : List Nat) (prev p : Nat), Seg mem prev p (pre ++ node :: post) →
      (pre ++ node :: post).Nodup → prev ∉ pre ++ node :: post →
      Seg mem3 prev (if pre = [] then n.next else p) (pre ++ post) := by
  intro pre
  induction pre with
  | nil =>
    intro prev p hs hnd hprev
    obtain ⟨_, _, n1, hn1, hp, hrest⟩ := hs
    rw [hn] at hn1
    injection hn1 with hn1
    subst hn1
    simp only [List.nil_append, if_true] at hnd hprev ⊢
    cases post with
    | nil => exact hrest
    | cons b rest =>
      obtain ⟨e, hb0, nb, hnb, _, hrest1⟩ := hrest
      have hnd2 := List.nodup_cons.mp hnd
      have hnd3 := List.nodup_cons.mp hnd2.2
      have hb1 : n.next ≠ NULL := by rw [e]; exact hb0
      have hnb1 : mem n.next = some nb := by rw [e]; exact hnb
      have g4 := F4 nb hb1 hnb1
      rw [e] at g4 F2
      refine ⟨e, hb0, { nb with prev := n.prev }, g4, hp, ?_⟩
      apply seg_frame mem mem3 rest b nb.next _ hrest1
      intro a ha
      apply F2
      · intro e1
        exact hnd2.1 (by rw [← e1]; exact List.mem_cons_of_mem _ ha)
      · intro e1
        rw [hp] at e1
        exact hprev (by rw [← e1]; exact List.mem_cons_of_mem _ (List.mem_cons_of_mem _ ha))
      · intro e1
        exact hnd3.1 (by rw [← e1]; exact ha)
  | cons x pre ih =>
    intro prev p hs hnd hprev
    obtain ⟨e, hx0, nx, hnx, hxp, hrest⟩ := hs
    have hnd1 : x ∉ pre ++ node :: post ∧ (pre ++ node :: post).Nodup :=
      List.nodup_cons.mp hnd
    have hxnot : x ∉ pre ++ node :: post := hnd1.1
    have key := ih x nx.next hrest hnd1.2 hxnot
    obtain ⟨n1, hn1, _, hpost, h1, h2⟩ := seg_links mem node post pre x nx.next hrest
    rw [hn] at hn1
    injection hn1 with hn1
    subst hn1
    have hxnode : x ≠ node := fun e1 => hxnot (by rw [e1]; simp)
    have hxnext : x ≠ n.next := by
      rcases seg_next mem node n.next post hpost with ⟨e1, _⟩ | ⟨_, e1⟩
      · rw [e1]; exact hx0
      · intro e2
        apply hxnot
        rw [e2]
        have : n.next ∈ post := List.mem_of_mem_head? e1
        simp [this]
    simp only [List.cons_append, reduceCtorEq, if_false]
    by_cases hpre : pre = []
    · subst hpre
      obtain ⟨e1, _⟩ := h1 rfl
      simp only [List.nil_append, if_true] at key ⊢
      rw [e1] at F3
      refine ⟨e, hx0, { nx with next := n.next }, F3 nx hx0 hnx, hxp, key⟩
    · obtain ⟨hm, _⟩ := h2 hpre
      simp only [hpre, if_false] at key
      have hxprev : x ≠ n.prev := fun e1 => hxnot (by rw [e1]; simp [hm])
      refine ⟨e, hx0, nx, ?_, hxp, key⟩
      rw [F2 x hxnode hxprev hxnext]
      exact hnx

theorem size_pred_of_lt (k : Nat) (hk : k + 1 < SIZE_RANGE) :
    (k + 1 + SIZE_RANGE - 1) % SIZE_RANGE = k := by
  unfold SIZE_RANGE at hk ⊢; omega

/-- What is left of a well formed list when one node is gone and its two
neighbours are linked to each other. -/
theorem remove_wf_of_links (mem mem3 : NodeMem) (lhead lcount : Nat)
    (pre : List Nat) (node : Nat) (post : List Nat) (n : list_node_t)
    (hwf : WF mem { head := lhead, count := lcount } (pre ++ node :: post))
    (hn : mem node = some n)
    (F2 : ∀ a, a ≠ node → a ≠ n.prev → a ≠ n.next → mem3 a = mem a)
    (F3 : ∀ q, n.prev ≠ NULL → mem n.prev = some q →
      mem3 n.prev = some { q with next := n.next })
    (F4 : ∀ q, n.next ≠ NULL → mem n.next = some q →
      mem3 n.next = some { q with prev := n.prev }) :
    WF mem3 { head := if pre = [] then n.next else lhead
              count := (lcount + SIZE_RANGE - 1) % SIZE_RANGE } (pre ++ post) ∧
      ∀ a ∈ pre ++ post, data_at mem3 a = data_at mem a := by
  obtain ⟨hseg, hcount, hnd, hrange⟩ := hwf
  simp only at hseg hcount
  have halloc := seg_allocated mem _ NULL lhead hseg
  have hnull : NULL ∉ pre ++ node :: post := fun hin => (halloc NULL hin).1 rfl
  have hseg3 := seg_remove mem mem3 node n post hn F2 F3 F4 pre NULL lhead hseg hnd hnull
  have hsub : (pre ++ post).Sublist (pre ++ node :: post) :=
    List.Sublist.append_left (List.sublist_cons_self node post) pre
  have hmem : ∀ a ∈ pre ++ post, a ∈ pre ++ node :: post := fun a ha => hsub.subset ha
  have hlen : (pre ++ node :: post).length + 1 ≤ SIZE_RANGE := by
    rcases length_lt_of_nodup SIZE_RANGE _ hnd
      (fun x hx => ⟨(halloc x hx).1, hrange x hx⟩) with hl | hl
    · exact hl
    · simp at hl
  have hnotin : node ∉ pre ++ post := by
    intro hin
    have h1 := List.nodup_append.mp hnd
    have h2 := List.nodup_cons.mp h1.2.1
    rcases List.mem_append.mp hin with e | e
    · exact h1.2.2 e (List.mem_cons_self _ _)
    · exact h2.1 e
  refine ⟨⟨hseg3, ?_, hnd.sublist hsub, fun a ha => hrange a (hmem a ha)⟩, ?_⟩
  · show (lcount + SIZE_RANGE - 1) % SIZE_RANGE = (pre ++ post).length
    rw [hcount]
    have e : (pre ++ node :: post).length = (pre ++ post).length + 1 := by simp; omega
    rw [e] at hlen ⊢
    exact size_pred_of_lt _ (by omega)
  · intro a ha
    have hane : a ≠ node := fun e => hnotin (by rw [← e]; exact ha)
    obtain ⟨ha0, q, hq⟩ := halloc a (hmem a ha)
    by_cases hp : a = n.prev
    · have h3 := F3 q (by rw [← hp]; exact ha0) (by rw [← hp]; exact hq)
      rw [← hp] at h3
      simp [data_at, h3, hq]
    · by_cases hx : a = n.next
      · have h4 := F4 q (by rw [← hx]; exact ha0) (by rw [← hx]; exact hq)
        rw [← hx] at h4
        simp [data_at, h4, hq]
      · simp [data_at, F2 a hane hp hx]

/-- The function `list_remove` on a well formed list and one of its nodes: it
returns, the node is freed, the list is well formed with exactly the other
nodes, in their order and with their data. -/
theorem list_remove_wf (mem : NodeMem) (list : list_t) (ps : List Nat) (node : Nat)
    (hwf : WF mem list ps) (hin : node ∈ ps) :
    ∃ mem1 list1 pre post, ps = pre ++ node :: post ∧ ps.erase node = pre ++ post ∧
      list_remove mem list node = Except.ok (mem1, list1) ∧
      WF mem1 list1 (pre ++ post) ∧ mem1 node = none ∧
      (∀ a ∈ pre ++ post, data_at mem1 a = data_at mem a) ∧
      contents mem1 (pre ++ post) = contents mem pre ++ contents mem post := by
  obtain ⟨lhead, lcount⟩ := list
  obtain ⟨pre, post, hps⟩ := List.append_of_mem hin
  subst hps
  have hwf1 := hwf
  obtain ⟨hseg, hcount, hnd, hrange⟩ := hwf
  simp only at hseg hcount
  have halloc := seg_allocated mem _ NULL lhead hseg
  obtain ⟨n, hn, hne, hpost, h1, h2⟩ := seg_links mem node post pre NULL lhead hseg
  have hnd1 := List.nodup_append.mp hnd
  have hnd2 := List.nodup_cons.mp hnd1.2.1
  have hnpre : node ∉ pre := fun e => hnd1.2.2 e (List.mem_cons_self _ _)
  have hnpost : node ∉ post := hnd2.1
  have herase : (pre ++ node :: post).erase node = pre ++ post := by
    rw [List.erase_append_right _ hnpre, List.erase_cons_head]
  have hcode : ∃ mem3,
      list_remove mem { head := lhead, count := lcount } node =
        Except.ok (mem3, { head := if pre = [] then n.next else lhead
                           count := (lcount + SIZE_RANGE - 1) % SIZE_RANGE }) ∧
      mem3 node = none ∧
      (∀ a, a ≠ node → a ≠ n.prev → a ≠ n.next → mem3 a = mem a) ∧
      (∀ q, n.prev ≠ NULL → mem n.prev = some q →
        mem3 n.prev = some { q with next := n.next }) ∧
      (∀ q, n.next ≠ NULL → mem n.next = some q →
        mem3 n.next = some { q with prev := n.prev }) := by
    by_cases hpre : pre = []
    · obtain ⟨hp0, _⟩ := h1 hpre
      rcases seg_next mem node n.next post hpost with ⟨e0, _⟩ | ⟨e0, e1⟩
      · refine ⟨Function.update mem node none, ?_, by simp, ?_, ?_, ?_⟩
        · simp [list_remove, load, unlink_prev, unlink_next, hne, hn, hp0, e0, hpre]
        · intro a ha _ _
          simp [Function.update_noteq ha]
        · intro q hq
          exact absurd hp0 hq
        · intro q hq
          exact absurd e0 hq
      · have hmn : n.next ∈ post := List.mem_of_mem_head? e1
        obtain ⟨_, nb, hnb⟩ := halloc n.next (by simp [hmn])
        have hxn : n.next ≠ node := fun e => hnpost (by rw [← e]; exact hmn)
        refine ⟨Function.update
            (Function.update mem n.next (some { nb with prev := n.prev })) node none,
          ?_, by simp, ?_, ?_, ?_⟩
        · simp [list_remove, load, unlink_prev, unlink_next, hne, hn, hp0, e0, hpre, hnb]
        · intro a ha _ hx
          simp [Function.update_noteq ha, Function.update_noteq hx]
        · intro q hq
          exact absurd hp0 hq
        · intro q _ hq
          rw [hnb] at hq
          injection hq with hq
          subst hq
          simp [Function.update_noteq hxn]
    · obtain ⟨hmp, hp0⟩ := h2 hpre
      obtain ⟨_, q0, hq0⟩ := halloc n.prev (by simp [hmp])
      have hpn : n.prev ≠ node := fun e => hnpre (by rw [← e]; exact hmp)
      have hnp : node ≠ n.prev := fun e => hpn e.symm
      rcases seg_next mem node n.next post hpost with ⟨e0, _⟩ | ⟨e0, e1⟩
      · refine ⟨Function.update
            (Function.update mem n.prev (some { q0 with next := n.next })) node none,
          ?_, by simp, ?_, ?_, ?_⟩
        · simp [list_remove, load, unlink_prev, unlink_next, hne, hn, hp0, e0, hpre, hq0,
            Function.update_noteq hnp]
        · intro a ha hp _
          simp [Function.update_noteq ha, Function.update_noteq hp]
        · intro q _ hq
          rw [hq0] at hq
          injection hq with hq
          subst hq
          simp [Function.update_noteq hpn]
        · intro q hq
          exact absurd e0 hq
      · have hmn : n.next ∈ post := List.mem_of_mem_head? e1
        obtain ⟨_, nb, hnb⟩ := halloc n.next (by simp [hmn])
        have hxn : n.next ≠ node := fun e => hnpost (by rw [← e]; exact hmn)
        have hxp : n.next ≠ n.prev := fun e =>
          hnd1.2.2 hmp (by rw [← e]; exact List.mem_cons_of_mem _ hmn)
        have hpx : n.prev ≠ n.next := fun e => hxp e.symm
        refine ⟨Function.update
            (Function.update
              (Function.update mem n.prev (some { q0 with next := n.next }))
              n.next (some { nb with prev := n.prev })) node none,
          ?_, by simp, ?_, ?_, ?_⟩
        · simp [list_remove, load, unlink_prev, unlink_next, hne, hn, hp0, e0, hpre, hq0,
            Function.update_noteq hnp, Function.update_noteq hxp, hnb]
        · intro a ha hp hx
          simp [Function.update_noteq ha, Function.update_noteq hp,
            Function.update_noteq hx]
        · intro q _ hq
          rw [hq0] at hq
          injection hq with hq
          subst hq
          simp [Function.update_noteq hpn, Function.update_noteq hpx]
        · intro q _ hq
          rw [hnb] at hq
          injection hq with hq
          subst hq
          simp [Function.update_noteq hxn]
  obtain ⟨mem3, c1, F1, F2, F3, F4⟩ := hcode
  obtain ⟨w1, w2⟩ := remove_wf_of_links mem mem3 lhead lcount pre node post n hwf1 hn F2 F3 F4
  refine ⟨mem3, _, pre, post, rfl, herase, c1, w1, F1, w2, ?_⟩
  have e : contents mem3 (pre ++ post) = contents mem (pre ++ post) := by
    unfold contents
    apply List.map_congr_left
    exact w2
  rw [e]
  simp [contents]

/-- The loop of `list_find` along a chain, with enough fuel: it ends, either
at NULL when no node has the data, or at the first node that has it; the
position of that node is what `find_node` computes on the data sequence. -/
theorem list_find_loop_spec (mem : NodeMem) (h : Handle) :
    ∀ (ps : List Nat) (prev p fuel : Nat), Seg mem prev p ps → ps.length < fuel →
      ((∀ a ∈ ps, data_at mem a ≠ h) ∧
        list_find_loop mem h fuel p = some (Except.ok NULL) ∧
        find_node (contents mem ps) h = none) ∨
      ∃ pre x post, ps = pre ++ x :: post ∧ (∀ a ∈ pre, data_at mem a ≠ h) ∧
        data_at mem x = h ∧ x ≠ NULL ∧
        list_find_loop mem h fuel p = some (Except.ok x) ∧
        find_node (contents mem ps) h = some pre.length := by
  intro ps
  induction ps with
  | nil =>
    intro prev p fuel hs hf
    left
    cases fuel with
    | zero => cases hf
    | succ f =>
      have hp : p = NULL := hs
      exact ⟨(fun a ha => by cases ha), by simp [list_find_loop, hp], rfl⟩
  | cons a rest ih =>
    intro prev p fuel hs hf
    obtain ⟨e, ha0, n, hn, _, hrest⟩ := hs
    subst e
    cases fuel with
    | zero => cases hf
    | succ f =>
      have hf1 : rest.length < f := by simp at hf; omega
      have hda : data_at mem p = n.data := by simp [data_at, hn]
      by_cases hd : n.data = h
      · right
        refine ⟨[], p, rest, rfl, (fun a ha => by cases ha), (by rw [hda]; exact hd), ha0,
          ?_, ?_⟩
        · simp [list_find_loop, ha0, hn, hd]
        · rw [contents_cons mem p rest n hn]
          simp [find_node, hd]
      · rcases ih p n.next f hrest hf1 with ⟨g1, g2, g3⟩ | ⟨pre, x, post, g1, g2, g3, g4, g5, g6⟩
        · left
          refine ⟨?_, ?_, ?_⟩
          · intro b hb
            rcases List.mem_cons.mp hb with e | e
            · rw [e, hda]; exact hd
            · exact g1 b e
          · simp [list_find_loop, ha0, hn, hd, g2]
          · rw [contents_cons mem p rest n hn]
            simp [find_node, hd, g3]
        · right
          refine ⟨p :: pre, x, post, by rw [g1]; rfl, ?_, g3, g4, ?_, ?_⟩
          · intro b hb
            rcases List.mem_cons.mp hb with e | e
            · rw [e, hda]; exact hd
            · exact g2 b e
          · simp [list_find_loop, ha0, hn, hd, g5]
          · rw [contents_cons mem p rest n hn]
            simp [find_node, hd, g6]

/-- In a chain every node with a successor is the `prev` of that successor. -/
theorem seg_next_prev (mem : NodeMem) :
    ∀ (ps : List Nat) (prev p : Nat), Seg mem prev p ps →
      ∀ a ∈ ps, ∀ n, mem a = some n → n.next ≠ NULL →
        n.next ∈ ps ∧ ∃ m, mem n.next = some m ∧ m.prev = a := by
  intro ps
  induction ps with
  | nil => intro prev p _ a ha; cases ha
  | cons x rest ih =>
    intro prev p hs a ha n hn hnext
    obtain ⟨_, _, nx, hnx, _, hrest⟩ := hs
    rcases List.mem_cons.mp ha with e | e
    · subst e
      rw [hnx] at hn
      injection hn with hn
      subst hn
      cases rest with
      | nil => exact absurd hrest hnext
      | cons b rest1 =>
        obtain ⟨e1, _, nb, hnb, hbp, _⟩ := hrest
        rw [e1]
        exact ⟨List.mem_cons_of_mem _ (List.mem_cons_self _ _), nb, hnb, hbp⟩
    · obtain ⟨g1, g2⟩ := ih x nx.next hrest a e n hn hnext
      exact ⟨List.mem_cons_of_mem _ g1, g2⟩

/-- The first node of a chain has the given `prev`. -/
theorem seg_head_prev (mem : NodeMem) (ps : List Nat) (prev p : Nat)
    (hs : Seg mem prev p ps) (hp : p ≠ NULL) :
    ps.head? = some p ∧ ∃ n, mem p = some n ∧ n.prev = prev := by
  cases ps with
  | nil => exact absurd hs hp
  | cons a rest =>
    obtain ⟨e, _, n, hn, hpv, _⟩ := hs
    subst e
    exact ⟨rfl, n, hn, hpv⟩

/-- Every admissible sequence of calls runs to its end and keeps the list well
formed. -/
theorem run_ops_wf :
    ∀ (ops : List Op) (s : State), WF s.mem s.list s.nodes → Admissible s ops →
      ∃ s1, run_ops s ops = Except.ok s1 ∧ WF s1.mem s1.list s1.nodes := by
  intro ops
  induction ops with
  | nil => intro s hwf _; exact ⟨s, rfl, hwf⟩
  | cons op rest ih =>
    intro s hwf hadm
    obtain ⟨h1, h2⟩ := hadm
    cases op with
    | insert d a =>
      obtain ⟨ha0, hal, hfresh⟩ := h1
      obtain ⟨mem1, list1, e1, w1, _⟩ := list_insert_wf s.mem s.list s.nodes d a hwf ha0 hal hfresh
      simp only [apply_op, e1] at h2
      obtain ⟨s1, r1, r2⟩ := ih { mem := mem1, list := list1, nodes := a :: s.nodes } w1 h2
      exact ⟨s1, by simp [run_ops, apply_op, e1, r1], r2⟩
    | remove node =>
      obtain ⟨mem1, list1, pre, post, _, e0, e1, w1, _⟩ :=
        list_remove_wf s.mem s.list s.nodes node hwf h1
      simp only [apply_op, e1] at h2
      rw [← e0] at w1
      obtain ⟨s1, r1, r2⟩ :=
        ih { mem := mem1, list := list1, nodes := s.nodes.erase node } w1 h2
      exact ⟨s1, by simp [run_ops, apply_op, e1, r1], r2⟩

end Ptr

/-! ### The sequence-level list is the data sequence of the pointer-level list -/

/-- The sequence-level `list_insert` computes the data sequence and the
counter that the pointer-level `list_insert` leaves. -/
theorem list_insert_refines (mem : Ptr.NodeMem) (list : Ptr.list_t) (ps : List Nat)
    (h : Handle) (a : Nat) (hwf : Ptr.WF mem list ps) (ha0 : a ≠ NULL)
    (hal : a < SIZE_RANGE) (hfresh : mem a = none) :
    ∃ mem1 list1, Ptr.list_insert mem list h a = Except.ok (mem1, list1) ∧
      list_insert { head := Ptr.contents mem ps, count := list.count } h =
        { head := Ptr.contents mem1 (a :: ps), count := list1.count } := by
  obtain ⟨mem1, list1, e1, _, _, _, e4⟩ := Ptr.list_insert_wf mem list ps h a hwf ha0 hal hfresh
  refine ⟨mem1, list1, e1, ?_⟩
  have hc : list1.count = (list.count + 1) % SIZE_RANGE := by
    unfold Ptr.list_insert at e1
    simp only [ha0, if_false] at e1
    split at e1
    · split at e1
      · cases e1
      · injection e1 with e1
        injection e1 with _ e1
        rw [← e1]
    · injection e1 with e1
      injection e1 with _ e1
      rw [← e1]
  simp [list_insert, e4, hc]

/-- The sequence-level `list_remove` of the position of a node computes the
data sequence and the counter that the pointer-level `list_remove` of that
node leaves. -/
theorem list_remove_refines (mem : Ptr.NodeMem) (list : Ptr.list_t) (ps : List Nat)
    (node : Nat) (hwf : Ptr.WF mem list ps) (hin : node ∈ ps) :
    ∃ mem1 list1 pre post, ps = pre ++ node :: post ∧
      Ptr.list_remove mem list node = Except.ok (mem1, list1) ∧
      list_remove { head := Ptr.contents mem ps, count := list.count } (some pre.length) =
        Except.ok { head := Ptr.contents mem1 (pre ++ post), count := list1.count } := by
  obtain ⟨mem1, list1, pre, post, e0, _, e1, _, _, _, e5⟩ :=
    Ptr.list_remove_wf mem list ps node hwf hin
  refine ⟨mem1, list1, pre, post, e0, e1, ?_⟩
  have hc : list1.count = (list.count + SIZE_RANGE - 1) % SIZE_RANGE := by
    unfold Ptr.list_remove at e1
    simp only at e1
    split at e1
    · cases e1
    · split at e1
      · cases e1
      · split at e1
        · cases e1
        · split at e1
          · cases e1
          · injection e1 with e1
            injection e1 with _ e1
            rw [← e1]
  have hlen : pre.length < (Ptr.contents mem ps).length := by
    rw [e0]
    simp [Ptr.contents]
  have her : (Ptr.contents mem ps).eraseIdx pre.length =
      Ptr.contents mem pre ++ Ptr.contents mem post := by
    rw [e0]
    simp only [Ptr.contents, List.map_append, List.map_cons]
    rw [List.eraseIdx_append_of_length_le (by simp)]
    simp
  simp [list_remove, hlen, her, e5, hc]

/-! ### The claims -/

/-- C1: for a channel created with any size and any sequence of completed
send, receive and close calls (and registry steps of selects), the payloads
obtained by the successful receives, in order, followed by the payloads in
the buffer, oldest first, are the payloads of the successful sends in order. -/
theorem fifo_received_then_buffer_eq_sent (n : Nat) (calls : List Call)
    (c : chan_t) (h : History)
    (hr : run (channel_create n) History.empty calls = Except.ok (c, h)) :
    h.received ++ c.buffer.data = h.sent :=
  (good_run n calls _ c _ h (good_create n) hr).2

/-- Witness for C1: spec scenario 1 completes with 10, 20, 30 received in
that order and an empty buffer. -/
theorem fifo_received_then_buffer_eq_sent_witness :
    run (channel_create 2) History.empty scenario_one =
        Except.ok ({ channel_create 2 with sender := 2 },
                   { sent := [10, 20, 30], received := [10, 20, 30] }) ∧
      [10, 20, 30] ++ ([] : List Payload) = [10, 20, 30] :=
  ⟨rfl, fifo_received_then_buffer_eq_sent 2 scenario_one
    { channel_create 2 with sender := 2 }
    { sent := [10, 20, 30], received := [10, 20, 30] } rfl⟩

/-- C2: in every state reached, by completed calls, from a state in which
channel_close returned SUCCESS, a send and a receive, blocking or not, return
CLOSED_ERROR; a credit is there, so the blocking form does not wait; the
channel after the call is the channel before it (buffer, both credits,
closed flag, waiter lists), no handle is posted and nothing is stored. -/
theorem closed_channel_returns_closed_error (c0 c : chan_t) (h0 h : History)
    (calls : List Call) (hclose : (channel_close c0).status = SUCCESS)
    (hr : run (channel_close c0).channel h0 calls = Except.ok (c, h))
    (p : Payload) (blocking : Bool) :
    0 < c.sender ∧ 0 < c.receiver ∧
      channel_send c p blocking =
        Except.ok { status := CLOSED_ERROR, channel := c, signals := [], stored := none } ∧
      channel_receive c blocking =
        Except.ok { status := CLOSED_ERROR, channel := c, signals := [], stored := none } := by
  have ho : c0.closed = false := by
    cases hc : c0.closed
    · rfl
    · rw [close_closed c0 hc] at hclose
      cases hclose
  have hinv := closedInv_run calls _ c h0 h (closedInv_close c0 ho) hr
  exact ⟨hinv.2.1, hinv.2.2.1, closed_send c hinv p blocking,
    closed_receive c hinv blocking⟩

/-- Witness for C2: a channel of capacity 1 holding payload 7 is closed, a
receive and a send are attempted, then a blocking send and receive both return
CLOSED_ERROR. -/
theorem closed_channel_returns_closed_error_witness :
    (channel_close { channel_create 1 with buffer := { capacity := 1, data := [7] }
                                           sender := 0, receiver := 1 }).status = SUCCESS ∧
    (Except.map (fun r => r.status)
      (channel_send { channel_create 1 with buffer := { capacity := 1, data := [7] }
                                            closed := true, sender := 1, receiver := 2 }
        9 true) = Except.ok CLOSED_ERROR) :=
  ⟨rfl, by
    have w := closed_channel_returns_closed_error
      { channel_create 1 with buffer := { capacity := 1, data := [7] }
                              sender := 0, receiver := 1 }
      { channel_create 1 with buffer := { capacity := 1, data := [7] }
                              closed := true, sender := 1, receiver := 2 }
      History.empty History.empty [Call.receive false, Call.send 8 true] rfl rfl 9 true
    rw [w.2.2.1]
    rfl⟩

/-- C3, the code at the failing input: the channel created with size 2^32 is
open and empty, its sender semaphore was initialised with (unsigned int) 2^32
= 0, and a non-blocking send on it returns WOULDBLOCK although the buffer
holds 0 payloads, not 2^32. -/
theorem wouldblock_on_empty_channel_of_size_two_pow_32 :
    run (channel_create 4294967296) History.empty [] =
        Except.ok (channel_create 4294967296, History.empty) ∧
      (channel_create 4294967296).closed = false ∧
      (channel_create 4294967296).sender = 0 ∧
      (channel_create 4294967296).buffer.capacity = 4294967296 ∧
      (channel_create 4294967296).buffer.data.length = 0 ∧
      (channel_create 4294967296).buffer.data.length ≠ 4294967296 ∧
      channel_send (channel_create 4294967296) 7 false =
        Except.ok { status := WOULDBLOCK, channel := channel_create 4294967296
                    signals := [], stored := none } :=
  ⟨rfl, rfl, rfl, rfl, rfl, by decide, rfl⟩

/-- The non-blocking forms for sizes that the sender semaphore can take.  In
every open state reached from channel_create(n) by completed calls, a
non-blocking send returns, and returns WOULDBLOCK exactly when the buffer holds
as many payloads as the sender semaphore was initialised with, which is n (the
buffer is full) when n is at most SEM_VALUE_MAX; a non-blocking receive
returns, and returns WOULDBLOCK exactly when the buffer is empty; a call that
returns WOULDBLOCK leaves the whole channel (buffer, credits, closed flag, both
waiter lists) as it was, posts no handle and stores nothing. -/
theorem wouldblock_iff_no_credit (n : Nat) (calls : List Call) (c : chan_t)
    (h : History)
    (hr : run (channel_create n) History.empty calls = Except.ok (c, h))
    (ho : c.closed = false) (p : Payload) :
    (∃ r, channel_send c p false = Except.ok r ∧
        (r.status = WOULDBLOCK ↔ c.buffer.data.length = sem_init (n % UINT_RANGE)) ∧
        (n ≤ SEM_VALUE_MAX → (r.status = WOULDBLOCK ↔ c.buffer.data.length = n)) ∧
        (r.status = WOULDBLOCK → r.channel = c ∧ r.signals = [] ∧ r.stored = none)) ∧
    (∃ r, channel_receive c false = Except.ok r ∧
        (r.status = WOULDBLOCK ↔ c.buffer.data.length = 0) ∧
        (r.status = WOULDBLOCK → r.channel = c ∧ r.signals = [] ∧ r.stored = none)) := by
  obtain ⟨⟨_, hlen, hs, hrc⟩, _⟩ := good_run n calls _ c _ h (good_create n) hr
  simp only [ho, Bool.false_eq_true, if_false] at hs hrc
  constructor
  · rw [channel_send_eq]
    by_cases h0 : c.sender = 0
    · refine ⟨_, by simp only [h0, if_true, Bool.false_eq_true, if_false]; rfl, ?_, ?_, ?_⟩
      · simp [ho]; omega
      · intro hn
        rw [sem_init_uint n hn] at hs hlen
        simp [ho]; omega
      · intro _; exact ⟨rfl, rfl, rfl⟩
    · refine ⟨_, by simp only [h0, if_false, ho, Bool.false_eq_true]; rfl, ?_, ?_, ?_⟩
      · simp; omega
      · intro hn
        rw [sem_init_uint n hn] at hs hlen
        simp; omega
      · intro hw; cases hw
  · rw [channel_receive_eq]
    by_cases h0 : c.receiver = 0
    · refine ⟨_, by simp only [h0, if_true, Bool.false_eq_true, if_false]; rfl, ?_, ?_⟩
      · have h1 : c.buffer.data.length = 0 := by omega
        simp only [ho, Bool.false_eq_true, if_false, h1]
      · intro _; exact ⟨rfl, rfl, rfl⟩
    · refine ⟨_, by simp only [h0, if_false, ho, Bool.false_eq_true]; rfl, ?_, ?_⟩
      · have h1 : c.buffer.data.length ≠ 0 := by omega
        simp only [reduceCtorEq, h1]
      · intro hw; cases hw

/-- An instance of the previous theorem: after two sends a channel of size 2
is full and a third non-blocking send returns WOULDBLOCK. -/
theorem wouldblock_iff_no_credit_witness :
    run (channel_create 2) History.empty [Call.send 10 false, Call.send 20 true] =
        Except.ok ({ channel_create 2 with buffer := { capacity := 2, data := [10, 20] }
                                           sender := 0, receiver := 2 },
                   { sent := [10, 20], received := [] }) ∧
    2 ≤ SEM_VALUE_MAX ∧
    ∃ r, channel_send { channel_create 2 with buffer := { capacity := 2, data := [10, 20] }
                                              sender := 0, receiver := 2 } 30 false
        = Except.ok r ∧ (r.status = WOULDBLOCK ↔ 2 = 2) :=
  ⟨rfl, by decide, by
    obtain ⟨r, h1, _, h2, _⟩ := (wouldblock_iff_no_credit 2
      [Call.send 10 false, Call.send 20 true]
      { channel_create 2 with buffer := { capacity := 2, data := [10, 20] }
                              sender := 0, receiver := 2 }
      { sent := [10, 20], received := [] } rfl rfl 30).1
    exact ⟨r, h1, h2 (by decide)⟩⟩

/-- C4: for a channel created with size n and every sequence of completed
calls, the number of payloads in the buffer is the number of sends that
returned SUCCESS minus the number of receives that returned SUCCESS, and it
is at most n (and at least 0, being a length). -/
theorem live_count_eq_sends_minus_receives (n : Nat) (calls : List Call)
    (c : chan_t) (h : History)
    (hr : run (channel_create n) History.empty calls = Except.ok (c, h)) :
    h.received.length ≤ h.sent.length ∧
      c.buffer.data.length = h.sent.length - h.received.length ∧
      ((c.buffer.data.length : Int) = (h.sent.length : Int) - (h.received.length : Int)) ∧
      0 ≤ c.buffer.data.length ∧ c.buffer.data.length ≤ n := by
  obtain ⟨⟨_, hlen, _, _⟩, hh⟩ := good_run n calls _ c _ h (good_create n) hr
  have hle := uint_mod_le n
  have hi := sem_init_le (n % UINT_RANGE)
  have hl : h.received.length + c.buffer.data.length = h.sent.length := by
    rw [← hh, List.length_append]
  refine ⟨?_, ?_, ?_, ?_, ?_⟩ <;> omega

/-- Witness for C4: after spec scenario 1 up to the first receive the buffer
of the size 2 channel holds 2 - 1 = 1 payload. -/
theorem live_count_eq_sends_minus_receives_witness :
    run (channel_create 2) History.empty (scenario_one.take 4) =
        Except.ok ({ channel_create 2 with buffer := { capacity := 2, data := [20] }
                                           sender := 1, receiver := 1 },
                   { sent := [10, 20], received := [10] }) ∧
      ([20] : List Payload).length = 2 - 1 ∧ ([20] : List Payload).length ≤ 2 :=
  ⟨rfl, (live_count_eq_sends_minus_receives 2 (scenario_one.take 4)
      { channel_create 2 with buffer := { capacity := 2, data := [20] }
                              sender := 1, receiver := 1 }
      { sent := [10, 20], received := [10] } rfl).2.1,
    (live_count_eq_sends_minus_receives 2 (scenario_one.take 4)
      { channel_create 2 with buffer := { capacity := 2, data := [20] }
                              sender := 1, receiver := 1 }
      { sent := [10, 20], received := [10] } rfl).2.2.2.2⟩

/-- C5, the code on the scenario: on the channel created with size 0 the
receiver thread and the sender thread of X both sleep in their first
sem_wait under every schedule; the configuration never changes, no call
returns, and the receiver never obtains X. -/
theorem unbuffered_pair_never_completes (X : Payload) (sched : List Nat) :
    schedule (rendezvous 0 X) sched = rendezvous 0 X ∧
      (∀ t ∈ (schedule (rendezvous 0 X) sched).threads, t.pc = Pc.sem_wait) ∧
      (∀ t ∈ (schedule (rendezvous 0 X) sched).threads,
        ∀ status, t.pc ≠ Pc.returned status) := by
  have hall : ∀ t ∈ (rendezvous 0 X).threads, t.pc = Pc.sem_wait := by
    intro t ht
    simp only [rendezvous, List.mem_cons, List.mem_singleton, List.not_mem_nil, or_false] at ht
    rcases ht with e | e <;> rw [e]
  have hfix := stuck_schedule (rendezvous 0 X) rfl rfl hall sched
  rw [hfix]
  refine ⟨rfl, hall, ?_⟩
  intro t ht status hpc
  rw [hall t ht] at hpc
  cases hpc

/-- C6, counterexample: on a channel of capacity 1 the send of payload 7
returns SUCCESS and the close returns SUCCESS, which gives the state
scenario_three; the next receive, blocking or not, returns CLOSED_ERROR, not
SUCCESS, stores nothing and leaves 7 in the buffer. -/
theorem receive_after_close_does_not_deliver :
    run (channel_create 1) History.empty [Call.send 7 true] =
        Except.ok ({ channel_create 1 with buffer := { capacity := 1, data := [7] }
                                           sender := 0, receiver := 1 },
                   { sent := [7], received := [] }) ∧
      channel_close { channel_create 1 with buffer := { capacity := 1, data := [7] }
                                            sender := 0, receiver := 1 } =
        { status := SUCCESS, channel := scenario_three, signals := [], stored := none } ∧
      channel_receive scenario_three true =
        Except.ok { status := CLOSED_ERROR, channel := scenario_three
                    signals := [], stored := none } ∧
      channel_receive scenario_three false =
        Except.ok { status := CLOSED_ERROR, channel := scenario_three
                    signals := [], stored := none } ∧
      scenario_three.buffer.data = [7] :=
  ⟨rfl, rfl, rfl, rfl, rfl⟩

/-- C6, amended: on an open channel whose buffer holds the payload A of a
successful send (in particular the channel of capacity 1 after that send),
channel_close returns SUCCESS; the next receive, blocking or not, returns
CLOSED_ERROR without waiting, stores nothing and leaves A in the buffer, and
the receive after that returns CLOSED_ERROR as well. -/
theorem receive_after_close_returns_closed_error (c : chan_t) (A : Payload)
    (ho : c.closed = false) (hA : c.buffer.data = [A]) (b1 b2 : Bool) :
    (channel_close c).status = SUCCESS ∧
      (channel_close c).channel.buffer.data = [A] ∧
      ∃ r1, channel_receive (channel_close c).channel b1 = Except.ok r1 ∧
        r1.status = CLOSED_ERROR ∧ r1.stored = none ∧ r1.channel.buffer.data = [A] ∧
        ∃ r2, channel_receive r1.channel b2 = Except.ok r2 ∧
          r2.status = CLOSED_ERROR ∧ r2.stored = none ∧ r2.channel.buffer.data = [A] := by
  have hinv := closedInv_close c ho
  have hb : (channel_close c).channel.buffer.data = [A] := by
    simp [channel_close, ho, hA]
  refine ⟨by simp [channel_close, ho], hb, _, closed_receive _ hinv b1, rfl, rfl, hb,
    _, closed_receive _ hinv b2, rfl, rfl, hb⟩

/-- Witness for C6 amended: the state after the send of 7 on a channel of
capacity 1. -/
theorem receive_after_close_returns_closed_error_witness :
    run (channel_create 1) History.empty [Call.send 7 false] =
        Except.ok ({ channel_create 1 with buffer := { capacity := 1, data := [7] }
                                           sender := 0, receiver := 1 },
                   { sent := [7], received := [] }) ∧
      (channel_close { channel_create 1 with buffer := { capacity := 1, data := [7] }
                                             sender := 0, receiver := 1 }).status
        = SUCCESS :=
  ⟨rfl, (receive_after_close_returns_closed_error
      { channel_create 1 with buffer := { capacity := 1, data := [7] }
                              sender := 0, receiver := 1 }
      7 rfl rfl true false).1⟩

/-- C7: when some descriptor's non-blocking attempt does not return
WOULDBLOCK (so the list is not empty), channel_select returns without
waiting; the index it writes is that of the first descriptor d whose attempt
does not return WOULDBLOCK (all descriptors before it do), and the status
it returns is the status of that attempt: SUCCESS or CLOSED_ERROR, and
CLOSED_ERROR exactly when the channel of d is closed.  In particular, when the
channel of one descriptor is closed and every other descriptor would block,
it returns CLOSED_ERROR with the index of that descriptor. -/
theorem select_returns_first_ready (heap : Heap) (L : List select_t)
    (selecter : Handle)
    (hready : ∃ x ∈ L, ∃ r, attempt heap x = Except.ok r ∧ r.status ≠ WOULDBLOCK) :
    (∃ res pre d post r, channel_select heap L selecter = Except.ok res ∧
        L = pre ++ d :: post ∧ res.selected_index = pre.length ∧
        (∀ x ∈ pre, ∃ rx, attempt heap x = Except.ok rx ∧ rx.status = WOULDBLOCK) ∧
        attempt heap d = Except.ok r ∧ r.status ≠ WOULDBLOCK ∧
        res.status = r.status ∧
        (res.status = SUCCESS ∨ res.status = CLOSED_ERROR) ∧
        (res.status = CLOSED_ERROR ↔ (heap d.channel).closed = true)) ∧
    (∀ pre d post, L = pre ++ d :: post → (heap d.channel).closed = true →
        (∀ x ∈ pre ++ post, ∃ rx, attempt heap x = Except.ok rx ∧
          rx.status = WOULDBLOCK) →
        ∃ res, channel_select heap L selecter = Except.ok res ∧
          res.status = CLOSED_ERROR ∧ res.selected_index = pre.length) := by
  have hclosed : ∀ (d : select_t) (r : chan_result), attempt heap d = Except.ok r →
      (r.status = CLOSED_ERROR ↔ (heap d.channel).closed = true) ∧
      (r.status ≠ WOULDBLOCK → r.status = SUCCESS ∨ r.status = CLOSED_ERROR) := by
    intro d r hr
    obtain ⟨r1, hr1, hcase⟩ := attempt_cases heap d
    rw [hr] at hr1
    injection hr1 with hr1
    subst hr1
    rcases hcase with ⟨e, _, _, _, hc⟩ | ⟨e, _, _, _, hc⟩ | ⟨e, hc, _⟩ <;>
      simp [e, hc]
  constructor
  · rcases scan_split heap L with hall | ⟨pre, d, post, r, e, h1, h2, h3⟩
    · obtain ⟨x, hx, r, hr, hnw⟩ := hready
      obtain ⟨r1, hr1, hw⟩ := hall x hx
      rw [hr] at hr1
      injection hr1 with hr1
      subst hr1
      exact absurd hw hnw
    · obtain ⟨res, r1, g1, _, _, _, _, g6, g7, _⟩ :=
        channel_select_first heap selecter pre d post r h1 h2 h3
      refine ⟨res, pre, d, post, r, by rw [e]; exact g1, e, g7, h1, h2, h3, g6, ?_, ?_⟩
      · rw [g6]; exact (hclosed d r h2).2 h3
      · rw [g6]; exact (hclosed d r h2).1
  · intro pre d post e hc hall
    obtain ⟨r, hr, _⟩ := attempt_cases heap d
    have hst : r.status = CLOSED_ERROR := (hclosed d r hr).1.mpr hc
    have hnw : r.status ≠ WOULDBLOCK := by rw [hst]; decide
    obtain ⟨res, r1, g1, _, _, _, _, g6, g7, _⟩ :=
      channel_select_first heap selecter pre d post r
        (fun x hx => hall x (List.mem_append_left _ hx)) hr hnw
    exact ⟨res, by rw [e]; exact g1, by rw [g6, hst], g7⟩

/-- Witness for C7: spec scenario 5, a select over receives on the empty
channel 1 and on channel 2, which holds a payload; and spec scenario 6, the
same select when channel 2 is closed. -/
theorem select_returns_first_ready_witness :
    (∃ x ∈ scenario_five_list,
      ∃ r, attempt scenario_five x = Except.ok r ∧ r.status ≠ WOULDBLOCK) ∧
    (∃ res, channel_select scenario_six scenario_five_list 99 = Except.ok res ∧
      res.status = CLOSED_ERROR ∧ res.selected_index = 1) ∧
    Except.map (fun res => (res.status, res.selected_index, res.channel_list))
        (channel_select scenario_five scenario_five_list 99) =
      Except.ok (SUCCESS, 1,
        [{ channel := 1, data := NULL, is_send := false },
         { channel := 2, data := 42, is_send := false }]) ∧
    ∃ res pre d post r, channel_select scenario_five scenario_five_list 99 = Except.ok res ∧
        scenario_five_list = pre ++ d :: post ∧ res.selected_index = pre.length ∧
        (∀ x ∈ pre, ∃ rx, attempt scenario_five x = Except.ok rx ∧
          rx.status = WOULDBLOCK) ∧
        attempt scenario_five d = Except.ok r ∧ r.status ≠ WOULDBLOCK ∧
        res.status = r.status ∧
        (res.status = SUCCESS ∨ res.status = CLOSED_ERROR) ∧
        (res.status = CLOSED_ERROR ↔ (scenario_five d.channel).closed = true) :=
  ⟨⟨{ channel := 2, data := NULL, is_send := false }, by simp [scenario_five_list],
      _, rfl, by decide⟩,
   (select_returns_first_ready scenario_six scenario_five_list 99
      ⟨{ channel := 2, data := NULL, is_send := false }, by simp [scenario_five_list],
        _, rfl, by decide⟩).2
      [{ channel := 1, data := NULL, is_send := false }]
      { channel := 2, data := NULL, is_send := false } [] rfl rfl
      (fun x hx => by
        rw [List.append_nil] at hx
        rw [List.mem_singleton.mp hx]
        exact ⟨_, rfl, rfl⟩),
   rfl,
   (select_returns_first_ready scenario_five scenario_five_list 99
      ⟨{ channel := 2, data := NULL, is_send := false }, by simp [scenario_five_list],
        _, rfl, by decide⟩).1⟩

/-- C8: when channel_select returns with selected_index = i, the descriptors
before i returned WOULDBLOCK at the state after the subscription and changed
nothing; the status is that of descriptor i's attempt there; the buffer,
credits and closed flag of every channel are those after that one attempt
alone (for every channel other than descriptor i's they are those before the
call); the descriptor array is the one before the call except that a
successful receive has stored its payload in the data slot of descriptor i. -/
theorem select_single_effect (heap : Heap) (L : List select_t) (selecter : Handle)
    (res : select_result) (hsel : channel_select heap L selecter = Except.ok res) :
    ∃ pre d post r, L = pre ++ d :: post ∧ res.selected_index = pre.length ∧
      (∀ ch, core (subscribe_all heap selecter L ch) = core (heap ch)) ∧
      (∀ x ∈ pre, ∃ rx, attempt (subscribe_all heap selecter L) x = Except.ok rx ∧
        rx.status = WOULDBLOCK ∧ rx.channel = subscribe_all heap selecter L x.channel ∧
        rx.signals = [] ∧ rx.stored = none) ∧
      attempt (subscribe_all heap selecter L) d = Except.ok r ∧
      r.status ≠ WOULDBLOCK ∧ res.status = r.status ∧
      (∀ ch, core (res.heap ch) =
        core (Function.update (subscribe_all heap selecter L) d.channel r.channel ch)) ∧
      (∀ ch, ch ≠ d.channel → core (res.heap ch) = core (heap ch)) ∧
      res.channel_list =
        pre ++ (match r.stored with
                | some p => { d with data := p }
                | none => d) :: post ∧
      (d.is_send = false → r.status = SUCCESS → ∃ p, r.stored = some p) ∧
      (d.is_send = true ∨ r.status ≠ SUCCESS → r.stored = none) := by
  have hsub := subscribe_all_core selecter L heap
  rcases scan_split heap L with hall | ⟨pre, d, post, r0, e, h1, h2, h3⟩
  · rw [channel_select_waits heap selecter L hall] at hsel
    cases hsel
  · obtain ⟨res1, r, g1, g2, g3, g4, g5, g6, g7, g8, g9, g10, _⟩ :=
      channel_select_first heap selecter pre d post r0 h1 h2 h3
    rw [← e] at g1 g2 g8
    rw [g1] at hsel
    injection hsel with hsel
    subst hsel
    have hnw : r.status ≠ WOULDBLOCK := by rw [g3]; exact h3
    refine ⟨pre, d, post, r, e, g7, hsub, ?_, g2, hnw, by rw [g6, g3], ?_, ?_, ?_, ?_, ?_⟩
    · intro x hx
      obtain ⟨rx, hrx, hw⟩ := wouldblock_transfer heap (subscribe_all heap selecter L)
        (fun ch => (hsub ch).symm) pre h1 x hx
      obtain ⟨f1, f2, f3⟩ := wouldblock_frame _ x rx hrx hw
      exact ⟨rx, hrx, hw, f1, f2, f3⟩
    · intro ch
      rw [g10 ch]
      by_cases hc : ch = d.channel
      · subst hc; simpa using g4.symm
      · simp [Function.update_noteq hc, hsub]
    · intro ch hc
      rw [g10 ch]
      simp [Function.update_noteq hc]
    · rw [g8, ← g5, e]
      cases hs : r.stored with
      | none => rfl
      | some p => exact store_data_append pre d post p
    · intro hd hs
      obtain ⟨r1, hr1, hcase⟩ := attempt_cases (subscribe_all heap selecter L) d
      rw [g2] at hr1
      injection hr1 with hr1
      subst hr1
      rcases hcase with ⟨e1, _⟩ | ⟨e1, _⟩ | ⟨_, _, _, e2, _⟩
      · rw [hs] at e1; cases e1
      · rw [hs] at e1; cases e1
      · exact e2 hd
    · intro hd
      obtain ⟨r1, hr1, hcase⟩ := attempt_cases (subscribe_all heap selecter L) d
      rw [g2] at hr1
      injection hr1 with hr1
      subst hr1
      rcases hcase with ⟨_, _, _, e1, _⟩ | ⟨_, _, _, e1, _⟩ | ⟨e1, _, _, _, e2⟩
      · exact e1
      · exact e1
      · rcases hd with hd | hd
        · exact e2 hd
        · exact absurd e1 hd

/-- Witness for C8: spec scenario 5; the select returns index 1, the payload
42 is in the slot of descriptor 1 only, channel 2 is empty again with its
credits moved by one, channel 1 is as before. -/
theorem select_single_effect_witness :
    Except.map
        (fun res => (res.status, res.selected_index, res.channel_list,
          core (res.heap 1), core (res.heap 2)))
        (channel_select scenario_five scenario_five_list 99) =
      Except.ok (SUCCESS, 1,
        [{ channel := 1, data := NULL, is_send := false },
         { channel := 2, data := 42, is_send := false }],
        core (channel_create 1), core (channel_create 1)) ∧
    ∃ res, channel_select scenario_five scenario_five_list 99 = Except.ok res ∧
      ∃ pre d post, scenario_five_list = pre ++ d :: post ∧
        res.selected_index = pre.length := by
  refine ⟨rfl, ?_⟩
  obtain ⟨res, _, hres, _⟩ := channel_select_first scenario_five 99
    [{ channel := 1, data := NULL, is_send := false }]
    { channel := 2, data := NULL, is_send := false } [] _
    (fun x hx => by
      rw [List.mem_singleton.mp hx]
      exact ⟨_, rfl, rfl⟩)
    rfl (by decide)
  obtain ⟨pre, d, post, _, e1, e2, _⟩ :=
    select_single_effect scenario_five scenario_five_list 99 res hres
  exact ⟨res, hres, pre, d, post, e1, e2⟩

/-- C9: channel_close on an open channel returns SUCCESS and leaves the
channel closed; on a closed channel it returns CLOSED_ERROR, the channel
after the call is the channel before it (the flag stays set, no credit is
posted) and no handle is posted. -/
theorem close_open_then_closed (c : chan_t) :
    (c.closed = false →
      (channel_close c).status = SUCCESS ∧ (channel_close c).channel.closed = true) ∧
    (c.closed = true →
      (channel_close c).status = CLOSED_ERROR ∧ (channel_close c).channel = c ∧
      (channel_close c).channel.closed = true ∧
      (channel_close c).channel.sender = c.sender ∧
      (channel_close c).channel.receiver = c.receiver ∧
      (channel_close c).signals = []) := by
  constructor
  · intro ho
    simp [channel_close, ho]
  · intro hc
    rw [close_closed c hc]
    exact ⟨rfl, rfl, hc, rfl, rfl, rfl⟩

/-- Witness for C9: the first close of a fresh channel with a subscribed
handle returns SUCCESS, the second returns CLOSED_ERROR and posts nothing. -/
theorem close_open_then_closed_witness :
    (channel_close (subscribe_one (channel_create 1) true 5)).status = SUCCESS ∧
      (channel_close (channel_close (subscribe_one (channel_create 1) true 5)).channel).status
        = CLOSED_ERROR ∧
      (channel_close (channel_close (subscribe_one (channel_create 1) true 5)).channel).signals
        = [] :=
  ⟨((close_open_then_closed (subscribe_one (channel_create 1) true 5)).1 rfl).1,
   ((close_open_then_closed
      (channel_close (subscribe_one (channel_create 1) true 5)).channel).2 rfl).1,
   ((close_open_then_closed
      (channel_close (subscribe_one (channel_create 1) true 5)).channel).2
        rfl).2.2.2.2.2⟩

/-- C10: channel_destroy returns DESTROY_ERROR exactly when the closed flag
is false; in that case it releases nothing and the channel object stays as it
was; on a closed channel it returns SUCCESS and no payload of the buffer is
among the resources it releases. -/
theorem destroy_error_iff_open (c : chan_t) :
    ((channel_destroy c).status = DESTROY_ERROR ↔ c.closed = false) ∧
    (c.closed = false →
      (channel_destroy c).channel = some c ∧ (channel_destroy c).released = []) ∧
    (c.closed = true →
      (channel_destroy c).status = SUCCESS ∧
      ∀ p, Resource.payload p ∉ (channel_destroy c).released) := by
  cases hc : c.closed <;>
    simp [channel_destroy, hc, buffer_free, list_destroy]

/-- Witness for C10: destroy on the open fresh channel, and on the closed
channel of scenario 3 that still holds payload 7. -/
theorem destroy_error_iff_open_witness :
    (channel_destroy (channel_create 1)).channel = some (channel_create 1) ∧
      (channel_destroy (channel_create 1)).released = [] ∧
      (channel_destroy scenario_three).status = SUCCESS ∧
      Resource.payload 7 ∉ (channel_destroy scenario_three).released :=
  ⟨((destroy_error_iff_open (channel_create 1)).2.1 rfl).1,
   ((destroy_error_iff_open (channel_create 1)).2.1 rfl).2,
   ((destroy_error_iff_open scenario_three).2.2 rfl).1,
   ((destroy_error_iff_open scenario_three).2.2 rfl).2 7⟩

/-- The credits at the largest value of a semaphore.  channel_create with
size SEM_VALUE_MAX = 2147483647 gives that sender credit; the close of that
fresh channel returns SUCCESS and leaves the sender credit where it was (its
sem_post fails), while the receiver credit goes from 0 to 1.  With size
2147483648 the sem_init of the sender semaphore fails and the credit is not
the size. -/
theorem credits_at_sem_value_max :
    (channel_create 2147483647).sender = 2147483647 ∧
      (channel_close (channel_create 2147483647)).status = SUCCESS ∧
      (channel_close (channel_create 2147483647)).channel.sender = 2147483647 ∧
      (channel_close (channel_create 2147483647)).channel.receiver = 1 ∧
      (channel_create 2147483648).sender = SEM_UNSET ∧
      (channel_create 2147483648).sender ≠ 2147483648 :=
  ⟨rfl, rfl, rfl, rfl, rfl, by decide⟩

/-- A close leaves a credit that is at SEM_VALUE_MAX where it is. -/
theorem channel_close_at_sem_value_max (c : chan_t) (ho : c.closed = false) :
    (c.sender = SEM_VALUE_MAX → (channel_close c).channel.sender = c.sender) ∧
      (c.receiver = SEM_VALUE_MAX → (channel_close c).channel.receiver = c.receiver) := by
  constructor
  · intro hm
    simp only [channel_close, ho, Bool.false_eq_true, if_false]
    rw [hm]; exact sem_post_max
  · intro hm
    simp only [channel_close, ho, Bool.false_eq_true, if_false]
    rw [hm]; exact sem_post_max

/-- C11, counterexample: on the channel created with size 1 the close returns
SUCCESS; in the state it leaves, sender-credit is 2 and the buffer is empty,
so sender-credit plus the filled slots is 2, not the capacity 1. -/
theorem sender_credit_plus_filled_after_close :
    (channel_close (channel_create 1)).status = SUCCESS ∧
      run (channel_create 1) History.empty [Call.close] =
        Except.ok (closed_fresh, History.empty) ∧
      closed_fresh.buffer.capacity = 1 ∧
      closed_fresh.sender + closed_fresh.buffer.data.length = 2 ∧
      closed_fresh.sender + closed_fresh.buffer.data.length ≠ 1 :=
  ⟨rfl, rfl, rfl, rfl, by decide⟩

/-- C11, amended: for n at most SEM_VALUE_MAX = 2^31 - 1, in every state
reached from channel_create(n) by completed send, receive and close calls,
sender-credit plus the number of filled buffer slots equals the capacity n
while the channel is open, and n + 1 once a close has succeeded (the close
posts one unit), unless n is SEM_VALUE_MAX and the buffer is empty: there the
credit is at SEM_VALUE_MAX when the close posts, and nothing is said. -/
theorem sender_credit_plus_filled (n : Nat) (hn : n ≤ SEM_VALUE_MAX)
    (calls : List Call) (c : chan_t) (h : History)
    (hr : run (channel_create n) History.empty calls = Except.ok (c, h)) :
    c.buffer.capacity = n ∧
      c.sender ≤ SEM_VALUE_MAX ∧
      (c.closed = false → c.sender + c.buffer.data.length = n) ∧
      (c.closed = true → n < SEM_VALUE_MAX ∨ c.buffer.data.length ≠ 0 →
        c.sender + c.buffer.data.length = n + 1) := by
  obtain ⟨⟨hcap, hlen, hs, _⟩, _⟩ := good_run n calls _ c _ h (good_create n) hr
  rw [sem_init_uint n hn] at hs hlen
  refine ⟨hcap, ?_, ?_, ?_⟩
  · cases hc : c.closed
    · simp only [hc, Bool.false_eq_true, if_false] at hs
      omega
    · simp only [hc, if_true] at hs
      rw [hs]
      exact sem_post_le_max _ (by omega)
  · intro ho
    simp only [ho, Bool.false_eq_true, if_false] at hs
    omega
  · intro hc hne
    simp only [hc, if_true] at hs
    rw [hs, sem_post_of_ne _ (by omega)]
    omega

/-- Witness for C11 amended: spec scenario 1 on the channel of size 2 up to
the first receive: credit 1 and one payload in the buffer; and the channel of
size 2 closed after one send: credit 2 and one payload in the buffer. -/
theorem sender_credit_plus_filled_witness :
    2 ≤ SEM_VALUE_MAX ∧
      run (channel_create 2) History.empty (scenario_one.take 4) =
        Except.ok ({ channel_create 2 with buffer := { capacity := 2, data := [20] }
                                           sender := 1, receiver := 1 },
                   { sent := [10, 20], received := [10] }) ∧
      1 + ([20] : List Payload).length = 2 ∧
      run (channel_create 2) History.empty [Call.send 10 false, Call.close] =
        Except.ok ({ channel_create 2 with buffer := { capacity := 2, data := [10] }
                                           closed := true, sender := 2, receiver := 2 },
                   { sent := [10], received := [] }) ∧
      2 + ([10] : List Payload).length = 2 + 1 :=
  ⟨by decide, rfl,
    (sender_credit_plus_filled 2 (by decide) (scenario_one.take 4)
      { channel_create 2 with buffer := { capacity := 2, data := [20] }
                              sender := 1, receiver := 1 }
      { sent := [10, 20], received := [10] } rfl).2.2.1 rfl,
    rfl,
    (sender_credit_plus_filled 2 (by decide) [Call.send 10 false, Call.close]
      { channel_create 2 with buffer := { capacity := 2, data := [10] }
                              closed := true, sender := 2, receiver := 2 }
      { sent := [10], received := [] } rfl).2.2.2 rfl (Or.inl (by decide))⟩

/-- C12, counterexample: in the state the successful close of the fresh
channel of size 1 leaves, receiver-credit is 1 while the buffer holds 0
payloads. -/
theorem receiver_credit_after_close_exceeds_filled :
    (channel_close (channel_create 1)).status = SUCCESS ∧
      run (channel_create 1) History.empty [Call.close] =
        Except.ok (closed_fresh, History.empty) ∧
      closed_fresh.receiver = 1 ∧ closed_fresh.buffer.data.length = 0 ∧
      ¬ closed_fresh.receiver ≤ closed_fresh.buffer.data.length :=
  ⟨rfl, rfl, rfl, rfl, by decide⟩

/-- C12, amended: in every state reached from channel_create(n) by completed
send, receive and close calls, receiver-credit equals the number of filled
buffer slots (so it is at most that number) while the channel is open, and
that number plus one once a close has succeeded, when fewer than
SEM_VALUE_MAX = 2^31 - 1 slots are filled (as they are whenever n is below
SEM_VALUE_MAX); with SEM_VALUE_MAX filled slots the credit is at
SEM_VALUE_MAX when the close posts, and nothing is said. -/
theorem receiver_credit_vs_filled (n : Nat) (calls : List Call) (c : chan_t)
    (h : History)
    (hr : run (channel_create n) History.empty calls = Except.ok (c, h)) :
    c.receiver ≤ SEM_VALUE_MAX ∧
      (c.closed = false → c.receiver = c.buffer.data.length) ∧
      (c.closed = false → c.receiver ≤ c.buffer.data.length) ∧
      (c.closed = true → c.buffer.data.length < SEM_VALUE_MAX →
        c.receiver = c.buffer.data.length + 1) ∧
      (c.closed = true → n < SEM_VALUE_MAX →
        c.receiver = c.buffer.data.length + 1) := by
  obtain ⟨⟨_, hlen, _, hrc⟩, _⟩ := good_run n calls _ c _ h (good_create n) hr
  have hi1 := sem_init_le (n % UINT_RANGE)
  have hi2 := sem_init_le_max (n % UINT_RANGE)
  have hle := uint_mod_le n
  refine ⟨?_, ?_, ?_, ?_, ?_⟩
  · cases hc : c.closed
    · simp only [hc, Bool.false_eq_true, if_false] at hrc
      omega
    · simp only [hc, if_true] at hrc
      rw [hrc]
      exact sem_post_le_max _ (by omega)
  · intro ho
    simp only [ho, Bool.false_eq_true, if_false] at hrc
    exact hrc
  · intro ho
    simp only [ho, Bool.false_eq_true, if_false] at hrc
    omega
  · intro hc hlt
    simp only [hc, if_true] at hrc
    rw [hrc, sem_post_of_ne _ (by omega)]
  · intro hc hlt
    simp only [hc, if_true] at hrc
    rw [hrc, sem_post_of_ne _ (by omega)]

/-- Witness for C12 amended: the same two states, the open one of spec
scenario 1 and the one closed after one send. -/
theorem receiver_credit_vs_filled_witness :
    run (channel_create 2) History.empty (scenario_one.take 4) =
        Except.ok ({ channel_create 2 with buffer := { capacity := 2, data := [20] }
                                           sender := 1, receiver := 1 },
                   { sent := [10, 20], received := [10] }) ∧
      1 ≤ ([20] : List Payload).length ∧
      run (channel_create 2) History.empty [Call.send 10 false, Call.close] =
        Except.ok ({ channel_create 2 with buffer := { capacity := 2, data := [10] }
                                           closed := true, sender := 2, receiver := 2 },
                   { sent := [10], received := [] }) ∧
      ([10] : List Payload).length < SEM_VALUE_MAX ∧
      2 = ([10] : List Payload).length + 1 :=
  ⟨rfl,
    (receiver_credit_vs_filled 2 (scenario_one.take 4)
      { channel_create 2 with buffer := { capacity := 2, data := [20] }
                              sender := 1, receiver := 1 }
      { sent := [10, 20], received := [10] } rfl).2.2.1 rfl,
    rfl, by decide,
    (receiver_credit_vs_filled 2 [Call.send 10 false, Call.close]
      { channel_create 2 with buffer := { capacity := 2, data := [10] }
                              closed := true, sender := 2, receiver := 2 }
      { sent := [10], received := [] } rfl).2.2.2.1 rfl (by decide)⟩

/-- C13: the return statuses respect the taxonomy for every input.  A blocking
send or receive that returns, returns SUCCESS or CLOSED_ERROR, never
WOULDBLOCK; close returns SUCCESS or CLOSED_ERROR; destroy returns SUCCESS or
DESTROY_ERROR; a select that returns, returns neither WOULDBLOCK nor
DESTROY_ERROR; no operation, in either mode, returns OTHER_ERROR. -/
theorem statuses_respect_taxonomy :
    (∀ c p r, channel_send c p true = Except.ok r →
      (r.status = SUCCESS ∨ r.status = CLOSED_ERROR) ∧ r.status ≠ WOULDBLOCK) ∧
    (∀ c r, channel_receive c true = Except.ok r →
      (r.status = SUCCESS ∨ r.status = CLOSED_ERROR) ∧ r.status ≠ WOULDBLOCK) ∧
    (∀ c, (channel_close c).status = SUCCESS ∨ (channel_close c).status = CLOSED_ERROR) ∧
    (∀ c, (channel_destroy c).status = SUCCESS ∨
      (channel_destroy c).status = DESTROY_ERROR) ∧
    (∀ heap L h res, channel_select heap L h = Except.ok res →
      res.status ≠ WOULDBLOCK ∧ res.status ≠ DESTROY_ERROR) ∧
    (∀ c p b r, channel_send c p b = Except.ok r → r.status ≠ OTHER_ERROR) ∧
    (∀ c b r, channel_receive c b = Except.ok r → r.status ≠ OTHER_ERROR) ∧
    (∀ c, (channel_close c).status ≠ OTHER_ERROR) ∧
    (∀ c, (channel_destroy c).status ≠ OTHER_ERROR) ∧
    (∀ heap L h res, channel_select heap L h = Except.ok res →
      res.status ≠ OTHER_ERROR) := by
  refine ⟨?_, ?_, ?_, ?_, ?_, ?_, ?_, ?_, ?_, ?_⟩
  · intro c p r hr
    rcases send_status_cases c p true r hr with e | e | ⟨e, _⟩
    · exact ⟨Or.inl e, by rw [e]; decide⟩
    · exact ⟨Or.inr e, by rw [e]; decide⟩
    · cases e
  · intro c r hr
    rcases receive_status_cases c true r hr with e | e | ⟨e, _⟩
    · exact ⟨Or.inl e, by rw [e]; decide⟩
    · exact ⟨Or.inr e, by rw [e]; decide⟩
    · cases e
  · intro c
    unfold channel_close
    cases c.closed <;> simp
  · intro c
    unfold channel_destroy
    cases c.closed <;> simp
  · intro heap L h res hsel
    rcases select_status_cases heap L h res hsel with e | e <;> rw [e] <;>
      exact ⟨by decide, by decide⟩
  · intro c p b r hr
    rcases send_status_cases c p b r hr with e | e | ⟨_, e⟩ <;> rw [e] <;> decide
  · intro c b r hr
    rcases receive_status_cases c b r hr with e | e | ⟨_, e⟩ <;> rw [e] <;> decide
  · intro c
    unfold channel_close
    cases c.closed <;> simp
  · intro c
    unfold channel_destroy
    cases c.closed <;> simp
  · intro heap L h res hsel
    rcases select_status_cases heap L h res hsel with e | e <;> rw [e] <;> decide

/-- Witness for C13: a blocking send on the fresh channel of size 1, and the
select of spec scenario 6 on a closed channel. -/
theorem statuses_respect_taxonomy_witness :
    (channel_send (channel_create 1) 7 true =
        Except.ok { status := SUCCESS
                    channel := { channel_create 1 with
                                 buffer := { capacity := 1, data := [7] }
                                 sender := 0, receiver := 1 }
                    signals := [], stored := none }) ∧
      (SUCCESS ≠ WOULDBLOCK) ∧
      (Except.map (fun res => res.status)
        (channel_select scenario_six scenario_five_list 99) = Except.ok CLOSED_ERROR) :=
  ⟨rfl,
   (statuses_respect_taxonomy.1 (channel_create 1) 7
      { status := SUCCESS
        channel := { channel_create 1 with
                     buffer := { capacity := 1, data := [7] }
                     sender := 0, receiver := 1 }
        signals := [], stored := none } rfl).2,
   rfl⟩

/-- C14, counterexample: on the channel both_sides, reached by two subscribe
steps, handle 5 is in send-waiters and a send that returns SUCCESS posts it;
on the channel twice_receive the handle 5 of receive-waiters is posted twice
by one successful send, not once. -/
theorem send_posts_handle_of_send_waiters :
    run (channel_create 1) History.empty
        [Call.subscribe true 5, Call.subscribe false 5] =
        Except.ok (both_sides, History.empty) ∧
      5 ∈ both_sides.send_list.head ∧
      (∃ r, channel_send both_sides 7 false = Except.ok r ∧ r.status = SUCCESS ∧
        r.signals = [5] ∧ 5 ∈ r.signals) ∧
      run (channel_create 1) History.empty
        [Call.subscribe false 5, Call.subscribe false 5] =
        Except.ok (twice_receive, History.empty) ∧
      (∃ r, channel_send twice_receive 7 false = Except.ok r ∧ r.status = SUCCESS ∧
        r.signals = [5, 5] ∧ r.signals.count 5 = 2) :=
  ⟨rfl, by decide, ⟨_, rfl, rfl, rfl, by decide⟩, rfl, ⟨_, rfl, rfl, rfl, by decide⟩⟩

/-- C14, amended: in every state reached from channel_create(n) by completed
calls, a channel_send that returns SUCCESS appends the payload at the tail of
the buffer, lowers sender-credit by one, raises receiver-credit by one and
posts the handles of receive-waiters, one post per node, head first: a handle
gets as many posts as receive-waiters has nodes with it, and a handle of
send-waiters gets a post only if it is in receive-waiters as well.  Dually a
channel_receive that returns SUCCESS stores and removes the oldest payload,
lowers receiver-credit by one, raises sender-credit by one and posts the
handles of send-waiters, one post per node.  Neither changes the closed flag,
the capacity or either waiter list. -/
theorem successful_send_receive_effect (n : Nat) (calls : List Call) (c : chan_t)
    (h : History)
    (hr : run (channel_create n) History.empty calls = Except.ok (c, h))
    (p : Payload) (b : Bool) :
    (∀ r, channel_send c p b = Except.ok r → r.status = SUCCESS →
      r.channel.buffer.data = c.buffer.data ++ [p] ∧
      r.channel.sender + 1 = c.sender ∧
      r.channel.receiver = c.receiver + 1 ∧
      r.signals = c.receive_list.head ∧
      (∀ w, r.signals.count w = c.receive_list.head.count w) ∧
      (∀ w ∈ c.send_list.head, w ∉ c.receive_list.head → w ∉ r.signals) ∧
      r.stored = none ∧
      r.channel.closed = c.closed ∧ r.channel.buffer.capacity = c.buffer.capacity ∧
      r.channel.send_list = c.send_list ∧ r.channel.receive_list = c.receive_list) ∧
    (∀ r, channel_receive c b = Except.ok r → r.status = SUCCESS →
      (∃ q, r.stored = some q ∧ c.buffer.data = q :: r.channel.buffer.data) ∧
      r.channel.receiver + 1 = c.receiver ∧
      r.channel.sender = c.sender + 1 ∧
      r.signals = c.send_list.head ∧
      (∀ w, r.signals.count w = c.send_list.head.count w) ∧
      (∀ w ∈ c.receive_list.head, w ∉ c.send_list.head → w ∉ r.signals) ∧
      r.channel.closed = c.closed ∧ r.channel.buffer.capacity = c.buffer.capacity ∧
      r.channel.send_list = c.send_list ∧ r.channel.receive_list = c.receive_list) := by
  obtain ⟨⟨hcap, hlen, hs, hrc⟩, _⟩ := good_run n calls _ c _ h (good_create n) hr
  have hle := uint_mod_le n
  have hi1 := sem_init_le (n % UINT_RANGE)
  have hi2 := sem_init_le_max (n % UINT_RANGE)
  constructor
  · intro r hsend hst
    rw [channel_send_eq] at hsend
    by_cases h0 : c.sender = 0
    · cases b <;> simp [h0] at hsend
      subst hsend
      cases hc : c.closed <;> simp [hc] at hst
    · cases hc : c.closed
      · simp [h0, hc] at hsend
        subst hsend
        simp only [hc, Bool.false_eq_true, if_false] at hs hrc
        have hlt : c.buffer.data.length < c.buffer.capacity := by omega
        refine ⟨by simp [buffer_add, hlt], ?_, sem_post_of_ne _ (by omega), rfl,
          fun _ => rfl, fun w _ hw => hw, rfl, rfl, by simp [buffer_add, hlt], rfl, rfl⟩
        show c.sender - 1 + 1 = c.sender
        omega
      · simp [h0, hc] at hsend
        subst hsend
        cases hst
  · intro r hrecv hst
    rw [channel_receive_eq] at hrecv
    by_cases h0 : c.receiver = 0
    · cases b <;> simp [h0] at hrecv
      subst hrecv
      cases hc : c.closed <;> simp [hc] at hst
    · cases hc : c.closed
      · simp [h0, hc] at hrecv
        subst hrecv
        simp only [hc, Bool.false_eq_true, if_false] at hs hrc
        cases hd : c.buffer.data with
        | nil => simp [hd] at hrc; exact absurd hrc h0
        | cons q rest =>
          refine ⟨⟨q, by simp [buffer_remove, hd], by simp [buffer_remove, hd]⟩, ?_,
            sem_post_of_ne _ (by omega),
            rfl, fun _ => rfl, fun w _ hw => hw, rfl, by simp [buffer_remove, hd],
            rfl, rfl⟩
          show c.receiver - 1 + 1 = c.receiver
          omega
      · simp [h0, hc] at hrecv
        subst hrecv
        cases hst

/-- Witness for C14 amended: a send on both_sides and a receive on the
channel it leaves. -/
theorem successful_send_receive_effect_witness :
    run (channel_create 1) History.empty
        [Call.subscribe true 5, Call.subscribe false 5] =
        Except.ok (both_sides, History.empty) ∧
      (∃ r, channel_send both_sides 7 true = Except.ok r ∧ r.status = SUCCESS ∧
        r.channel.buffer.data = both_sides.buffer.data ++ [7] ∧
        r.signals = both_sides.receive_list.head) :=
  ⟨rfl, _, rfl, rfl,
    ((successful_send_receive_effect 1
      [Call.subscribe true 5, Call.subscribe false 5] both_sides History.empty rfl
      7 true).1 _ rfl rfl).1,
    ((successful_send_receive_effect 1
      [Call.subscribe true 5, Call.subscribe false 5] both_sides History.empty rfl
      7 true).1 _ rfl rfl).2.2.2.1⟩

/-- C15, counterexample: the close of twice_send returns SUCCESS and posts
handle 5 of send-waiters twice; the close of both_sides returns SUCCESS and
posts handle 5, which is in send-waiters and in receive-waiters, twice. -/
theorem close_posts_handle_twice :
    run (channel_create 1) History.empty
        [Call.subscribe true 5, Call.subscribe true 5] =
        Except.ok (twice_send, History.empty) ∧
      5 ∈ twice_send.send_list.head ∧
      (channel_close twice_send).status = SUCCESS ∧
      (channel_close twice_send).signals = [5, 5] ∧
      (channel_close twice_send).signals.count 5 = 2 ∧
      run (channel_create 1) History.empty
        [Call.subscribe true 5, Call.subscribe false 5] =
        Except.ok (both_sides, History.empty) ∧
      (channel_close both_sides).status = SUCCESS ∧
      (channel_close both_sides).signals.count 5 = 2 :=
  ⟨rfl, by decide, rfl, rfl, by decide, rfl, rfl, by decide⟩

/-- C15, amended: a channel_close that returns SUCCESS posts one unit to
sender-credit when that credit is below SEM_VALUE_MAX = 2^31 - 1 and one unit
to receiver-credit when that credit is below SEM_VALUE_MAX (of a credit at
SEM_VALUE_MAX nothing is said), posts the handles of send-waiters, one post
per node, and then the handles of receive-waiters, one post per node, so that
a handle gets as many posts as the two lists together have nodes with it; it
sets the closed flag and leaves the buffer and both waiter lists unchanged. -/
theorem successful_close_effect (c : chan_t)
    (hst : (channel_close c).status = SUCCESS) :
    (c.sender < SEM_VALUE_MAX → (channel_close c).channel.sender = c.sender + 1) ∧
      (c.receiver < SEM_VALUE_MAX →
        (channel_close c).channel.receiver = c.receiver + 1) ∧
      (channel_close c).signals = c.send_list.head ++ c.receive_list.head ∧
      (∀ w, (channel_close c).signals.count w =
        c.send_list.head.count w + c.receive_list.head.count w) ∧
      (∀ w, w ∈ (channel_close c).signals ↔
        w ∈ c.send_list.head ∨ w ∈ c.receive_list.head) ∧
      (channel_close c).channel.closed = true ∧
      (channel_close c).channel.buffer = c.buffer ∧
      (channel_close c).channel.send_list = c.send_list ∧
      (channel_close c).channel.receive_list = c.receive_list ∧
      (channel_close c).stored = none := by
  cases hc : c.closed
  · refine ⟨?_, ?_, ?_⟩
    · intro hlt
      simp only [channel_close, hc, Bool.false_eq_true, if_false]
      exact sem_post_of_ne _ (Nat.ne_of_lt hlt)
    · intro hlt
      simp only [channel_close, hc, Bool.false_eq_true, if_false]
      exact sem_post_of_ne _ (Nat.ne_of_lt hlt)
    · simp [channel_close, hc, signal_all]
  · rw [close_closed c hc] at hst
    cases hst

/-- Witness for C15 amended: the close of both_sides, whose sender-credit is
1. -/
theorem successful_close_effect_witness :
    (channel_close both_sides).status = SUCCESS ∧
      both_sides.sender < SEM_VALUE_MAX ∧
      (channel_close both_sides).channel.sender = both_sides.sender + 1 ∧
      (channel_close both_sides).signals =
        both_sides.send_list.head ++ both_sides.receive_list.head :=
  ⟨rfl, by decide, (successful_close_effect both_sides rfl).1 (by decide),
    (successful_close_effect both_sides rfl).2.2.1⟩

/-- C16: when sender-credit is positive, channel_send with blocking = true
and with blocking = false return, and return the same status, the same
channel and the same signals; likewise channel_receive when receiver-credit
is positive. -/
theorem blocking_eq_nonblocking_with_credit (c : chan_t) (p : Payload) :
    (0 < c.sender →
      channel_send c p true = channel_send c p false ∧
      ∃ r, channel_send c p true = Except.ok r ∧ channel_send c p false = Except.ok r) ∧
    (0 < c.receiver →
      channel_receive c true = channel_receive c false ∧
      ∃ r, channel_receive c true = Except.ok r ∧ channel_receive c false = Except.ok r) := by
  constructor
  · intro hs
    have h0 : c.sender ≠ 0 := Nat.ne_of_gt hs
    rw [channel_send_eq c p true, channel_send_eq c p false]
    cases c.closed <;> simp [h0]
  · intro hs
    have h0 : c.receiver ≠ 0 := Nat.ne_of_gt hs
    rw [channel_receive_eq c true, channel_receive_eq c false]
    cases c.closed <;> simp [h0]

/-- Witness for C16: the fresh channel of size 1 has sender-credit 1; after a
send it has receiver-credit 1. -/
theorem blocking_eq_nonblocking_with_credit_witness :
    0 < (channel_create 1).sender ∧
      channel_send (channel_create 1) 7 true = channel_send (channel_create 1) 7 false ∧
      0 < scenario_three.receiver ∧
      channel_receive scenario_three true = channel_receive scenario_three false :=
  ⟨by decide,
   ((blocking_eq_nonblocking_with_credit (channel_create 1) 7).1 (by decide)).1,
   by decide,
   ((blocking_eq_nonblocking_with_credit scenario_three 7).2 (by decide)).1⟩

/-- C17: whenever channel_select returns, for every descriptor list, every
channel has the handles in its send-waiters and receive-waiters that it had
before the call, in the same order and number; with counters in the range of
size_t both lists are, counter included, the lists before the call; and the
caller's handle, which is in no list before the call (it is the address of a
local of the call), is in none after it. -/
theorem select_restores_waiter_lists (heap : Heap) (L : List select_t)
    (selecter : Handle) (res : select_result)
    (hsel : channel_select heap L selecter = Except.ok res) :
    (∀ ch, (res.heap ch).send_list.head = (heap ch).send_list.head ∧
      (res.heap ch).receive_list.head = (heap ch).receive_list.head) ∧
    (∀ ch, (heap ch).send_list.count < SIZE_RANGE →
      (res.heap ch).send_list = (heap ch).send_list) ∧
    (∀ ch, (heap ch).receive_list.count < SIZE_RANGE →
      (res.heap ch).receive_list = (heap ch).receive_list) ∧
    ((∀ ch, selecter ∉ (heap ch).send_list.head ∧
        selecter ∉ (heap ch).receive_list.head) →
      ∀ ch, selecter ∉ (res.heap ch).send_list.head ∧
        selecter ∉ (res.heap ch).receive_list.head) := by
  obtain ⟨H, hw, hu⟩ := channel_select_return_heap heap L selecter res hsel
  have hs := subscribed_congr selecter _ L _ H hw
    (subscribe_all_subscribed selecter heap L)
  obtain ⟨heap1, f1, f2, _⟩ := unsubscribe_all_shape selecter _ L [] H
    (by simpa using hs)
  have e1 : unsubscribe_all H selecter L = Except.ok heap1 := f1
  rw [hu] at e1
  injection e1 with e1
  subst e1
  have hhead : ∀ ch dir, (waiters (res.heap ch) dir).head = (waiters (heap ch) dir).head := by
    intro ch dir
    simpa [need] using (f2 ch dir).1
  have hcount : ∀ ch dir, (waiters (heap ch) dir).count < SIZE_RANGE →
      (waiters (res.heap ch) dir).count = (waiters (heap ch) dir).count := by
    intro ch dir hwf
    have := (f2 ch dir).2 hwf
    simpa [need, Nat.mod_eq_of_lt hwf] using this
  have hsend : ∀ ch, (res.heap ch).send_list.head = (heap ch).send_list.head := fun ch => by
    simpa [waiters] using hhead ch true
  have hrecv : ∀ ch, (res.heap ch).receive_list.head = (heap ch).receive_list.head :=
    fun ch => by simpa [waiters] using hhead ch false
  refine ⟨fun ch => ⟨hsend ch, hrecv ch⟩, ?_, ?_, ?_⟩
  · intro ch hwf
    have hc := hcount ch true (by simpa [waiters] using hwf)
    simp only [waiters, if_true] at hc
    cases hr : (res.heap ch).send_list
    cases ho : (heap ch).send_list
    have a := hsend ch
    rw [hr, ho] at a hc
    simp only at a hc
    rw [a, hc]
  · intro ch hwf
    have hc := hcount ch false (by simpa [waiters] using hwf)
    simp only [waiters, Bool.false_eq_true, if_false] at hc
    cases hr : (res.heap ch).receive_list
    cases ho : (heap ch).receive_list
    have a := hrecv ch
    rw [hr, ho] at a hc
    simp only at a hc
    rw [a, hc]
  · intro hfresh ch
    rw [hsend ch, hrecv ch]
    exact hfresh ch

/-- Witness for C17: the select over repeated_list with handle 99 returns
from the send of descriptor 1, and channel 1 has its waiter lists of before
the call: no send-waiter, handle 5 as the one receive-waiter. -/
theorem select_restores_waiter_lists_witness :
    Except.map
        (fun res => (res.status, res.selected_index,
          (res.heap 1).send_list, (res.heap 1).receive_list))
        (channel_select scenario_lists repeated_list 99) =
      Except.ok (SUCCESS, 1, list_create, list_insert list_create 5) ∧
    ∃ res, channel_select scenario_lists repeated_list 99 = Except.ok res ∧
      ∀ ch, (res.heap ch).send_list.head = (scenario_lists ch).send_list.head ∧
        (res.heap ch).receive_list.head = (scenario_lists ch).receive_list.head := by
  refine ⟨rfl, ?_⟩
  obtain ⟨res, _, hres, _⟩ := channel_select_first scenario_lists 99
    [{ channel := 2, data := NULL, is_send := false }]
    { channel := 1, data := 7, is_send := true }
    [{ channel := 1, data := 8, is_send := true },
     { channel := 1, data := NULL, is_send := false }] _
    (fun x hx => by
      rw [List.mem_singleton.mp hx]
      exact ⟨_, rfl, rfl⟩)
    rfl (by decide)
  exact ⟨res, hres,
    (select_restores_waiter_lists scenario_lists repeated_list 99 res hres).1⟩

/-- C18: on a well formed list with nodes ps, list_find (with fuel for the
length of the list) returns a pointer p; p is NULL exactly when no node has
data h; otherwise p is the first node, head first, whose data is h, at the
position the sequence-level list_find gives; and on the list that
list_insert(list, h) leaves, for an address fresh from malloc, list_find
returns the new node, which is the head. -/
theorem list_find_first_match (mem : Ptr.NodeMem) (list : Ptr.list_t) (ps : List Nat)
    (h : Handle) (fuel : Nat) (hwf : Ptr.WF mem list ps) (hfuel : ps.length < fuel) :
    (∃ p, Ptr.list_find mem list h fuel = some (Except.ok p) ∧
      (p = NULL ↔ ∀ x ∈ ps, Ptr.data_at mem x ≠ h) ∧
      (p = NULL →
        list_find { head := Ptr.contents mem ps, count := list.count } h = none) ∧
      (p ≠ NULL → ∃ pre post, ps = pre ++ p :: post ∧
        (∀ y ∈ pre, Ptr.data_at mem y ≠ h) ∧ Ptr.data_at mem p = h ∧
        list_find { head := Ptr.contents mem ps, count := list.count } h =
          some pre.length)) ∧
    (∀ a, a ≠ NULL → a < SIZE_RANGE → mem a = none →
      ∃ mem1 list1, Ptr.list_insert mem list h a = Except.ok (mem1, list1) ∧
        Ptr.WF mem1 list1 (a :: ps) ∧ list1.head = a ∧
        Ptr.list_find mem1 list1 h (fuel + 1) = some (Except.ok a)) := by
  constructor
  · rcases Ptr.list_find_loop_spec mem h ps NULL list.head fuel hwf.1 hfuel with
      ⟨g1, g2, g3⟩ | ⟨pre, x, post, g1, g2, g3, g4, g5, g6⟩
    · exact ⟨NULL, g2, ⟨fun _ => g1, fun _ => rfl⟩, fun _ => g3, fun hp => absurd rfl hp⟩
    · refine ⟨x, g5, ⟨?_, ?_⟩, fun hp => absurd hp g4, fun _ => ⟨pre, post, g1, g2, g3, g6⟩⟩
      · intro hp
        exact absurd hp g4
      · intro hall
        exact absurd g3 (hall x (by rw [g1]; simp))
  · intro a ha0 hal hfresh
    obtain ⟨mem1, list1, e1, w1, e2, e3, _⟩ :=
      Ptr.list_insert_wf mem list ps h a hwf ha0 hal hfresh
    refine ⟨mem1, list1, e1, w1, e2, ?_⟩
    simp [Ptr.list_find, Ptr.list_find_loop, e2, ha0, e3]

/-- Witness for C18: the list of two_nodes; handle 5 is found at the second
node, address 16. -/
theorem list_find_first_match_witness :
    Ptr.WF two_nodes two_nodes_list [32, 16] ∧
      Ptr.list_find two_nodes two_nodes_list 5 3 = some (Except.ok 16) ∧
      Ptr.list_find two_nodes two_nodes_list 9 3 = some (Except.ok NULL) ∧
      ∃ p, Ptr.list_find two_nodes two_nodes_list 5 3 = some (Except.ok p) ∧
        (p = NULL ↔ ∀ x ∈ [32, 16], Ptr.data_at two_nodes x ≠ 5) := by
  have hwf : Ptr.WF two_nodes two_nodes_list [32, 16] :=
    ⟨⟨rfl, by decide, { data := 6, prev := NULL, next := 16 }, rfl, rfl,
        rfl, by decide, { data := 5, prev := 32, next := NULL }, rfl, rfl, rfl⟩,
      rfl, by decide, by decide⟩
  refine ⟨hwf, rfl, rfl, ?_⟩
  obtain ⟨p, h1, h2, _⟩ :=
    (list_find_first_match two_nodes two_nodes_list [32, 16] 5 3 hwf (by decide)).1
  exact ⟨p, h1, h2⟩

/-- C19: channel_select never faults, for every descriptor list; in its
unsubscribe loop, run on channels whose waiter lists are those the subscribe
loop left, the step for each descriptor d (after the steps for the
descriptors before it) has list_find return a node, not NULL: the head of
the waiter list of d, which holds the caller's handle; list_remove gets that
node and succeeds.  This holds also when several descriptors name the same
channel and direction. -/
theorem unsubscribe_finds_handle (heap : Heap) (L : List select_t)
    (selecter : Handle) :
    channel_select heap L selecter ≠ Except.error Halt.fault ∧
    ∀ H, (∀ ch dir, waiters (H ch) dir =
        waiters (subscribe_all heap selecter L ch) dir) →
      (∃ H1, unsubscribe_all H selecter L = Except.ok H1) ∧
      ∀ pre d post, L = pre ++ d :: post →
        ∃ Hj, unsubscribe_all H selecter pre = Except.ok Hj ∧
          list_find (waiters (Hj d.channel) d.is_send) selecter = some 0 ∧
          (waiters (Hj d.channel) d.is_send).head.head? = some selecter ∧
          ∃ l, list_remove (waiters (Hj d.channel) d.is_send)
            (list_find (waiters (Hj d.channel) d.is_send) selecter) = Except.ok l := by
  refine ⟨channel_select_no_fault heap L selecter, ?_⟩
  intro H hw
  have hs := subscribed_congr selecter _ L _ H hw
    (subscribe_all_subscribed selecter heap L)
  constructor
  · obtain ⟨H1, f1, _⟩ := unsubscribe_all_shape selecter _ L [] H (by simpa using hs)
    exact ⟨H1, f1⟩
  · intro pre d post e
    rw [e] at hs
    obtain ⟨Hj, f1, f2, _⟩ := unsubscribe_all_shape selecter _ pre (d :: post) H hs
    obtain ⟨a1, _⟩ := f2 d.channel d.is_send
    simp only [need_cons, and_self, if_true] at a1
    rw [Nat.add_comm, List.replicate_succ, List.cons_append] at a1
    obtain ⟨c1, _, _, e3, _⟩ := unsubscribe_one_head (Hj d.channel) d.is_send selecter _ a1
    refine ⟨Hj, f1, e3, by rw [a1]; rfl, ?_⟩
    rw [e3]
    simp [list_remove, a1]

/-- Witness for C19: the select over repeated_list; after the unsubscribe
steps for descriptors 0 and 1 the step for descriptor 2, which names channel 1
for a send like descriptor 1, still finds handle 99 at the head. -/
theorem unsubscribe_finds_handle_witness :
    (∀ ch dir, waiters (subscribe_all scenario_lists 99 repeated_list ch) dir =
        waiters (subscribe_all scenario_lists 99 repeated_list ch) dir) ∧
    (waiters (subscribe_all scenario_lists 99 repeated_list 1) true).head = [99, 99] ∧
    ∃ Hj, unsubscribe_all (subscribe_all scenario_lists 99 repeated_list) 99
        (repeated_list.take 2) = Except.ok Hj ∧
      list_find (waiters (Hj 1) true) 99 = some 0 :=
  ⟨fun _ _ => rfl, rfl, by
    obtain ⟨Hj, h1, h2, _⟩ :=
      ((unsubscribe_finds_handle scenario_lists repeated_list 99).2
        (subscribe_all scenario_lists 99 repeated_list) (fun _ _ => rfl)).2
        (repeated_list.take 2) { channel := 1, data := 8, is_send := true }
        [{ channel := 1, data := NULL, is_send := false }] rfl
    exact ⟨Hj, h1, h2⟩⟩

/-- C20: starting from list_create (whatever else the memory holds), every
admissible sequence of list_insert and list_remove calls (malloc returns
fresh addresses, list_remove gets nodes of the list) runs to its end, and in
the state it leaves the nodes reached from head are the tracked nodes, count
is their number, the prev of the head is NULL and every node with a
successor is the prev of that successor.  In such a state list_insert(h)
puts a node with h at the head, in front of the previous nodes, whose data
and order stay; list_remove(node) frees that node and leaves exactly the
other nodes, in their order and with their data; both leave the list well
formed. -/
theorem list_ops_keep_well_formed (mem0 : Ptr.NodeMem) (ops : List Ptr.Op)
    (hadm : Ptr.Admissible { mem := mem0, list := Ptr.list_create, nodes := [] } ops) :
    ∃ s, Ptr.run_ops { mem := mem0, list := Ptr.list_create, nodes := [] } ops =
        Except.ok s ∧
      Ptr.WF s.mem s.list s.nodes ∧
      Ptr.Seg s.mem NULL s.list.head s.nodes ∧
      s.list.count = s.nodes.length ∧
      (s.list.head ≠ NULL → s.nodes.head? = some s.list.head ∧
        ∃ n, s.mem s.list.head = some n ∧ n.prev = NULL) ∧
      (∀ a ∈ s.nodes, ∀ n, s.mem a = some n → n.next ≠ NULL →
        n.next ∈ s.nodes ∧ ∃ m, s.mem n.next = some m ∧ m.prev = a) ∧
      (∀ h a, a ≠ NULL → a < SIZE_RANGE → s.mem a = none →
        ∃ mem1 list1, Ptr.list_insert s.mem s.list h a = Except.ok (mem1, list1) ∧
          Ptr.WF mem1 list1 (a :: s.nodes) ∧ list1.head = a ∧
          Ptr.contents mem1 (a :: s.nodes) = h :: Ptr.contents s.mem s.nodes) ∧
      (∀ node ∈ s.nodes,
        ∃ mem1 list1 pre post, s.nodes = pre ++ node :: post ∧
          s.nodes.erase node = pre ++ post ∧
          Ptr.list_remove s.mem s.list node = Except.ok (mem1, list1) ∧
          Ptr.WF mem1 list1 (pre ++ post) ∧ mem1 node = none ∧
          (∀ a ∈ pre ++ post, Ptr.data_at mem1 a = Ptr.data_at s.mem a) ∧
          Ptr.contents mem1 (pre ++ post) =
            Ptr.contents s.mem pre ++ Ptr.contents s.mem post) := by
  have hwf0 : Ptr.WF mem0 Ptr.list_create [] :=
    ⟨rfl, rfl, List.nodup_nil, fun a ha => by cases ha⟩
  obtain ⟨s, hrun, hwf⟩ := Ptr.run_ops_wf ops
    { mem := mem0, list := Ptr.list_create, nodes := [] } hwf0 hadm
  refine ⟨s, hrun, hwf, hwf.1, hwf.2.1, ?_, ?_, ?_, ?_⟩
  · intro hh
    exact Ptr.seg_head_prev s.mem s.nodes NULL s.list.head hwf.1 hh
  · exact Ptr.seg_next_prev s.mem s.nodes NULL s.list.head hwf.1
  · intro h a ha0 hal hfresh
    obtain ⟨mem1, list1, e1, w1, e2, _, e4⟩ :=
      Ptr.list_insert_wf s.mem s.list s.nodes h a hwf ha0 hal hfresh
    exact ⟨mem1, list1, e1, w1, e2, e4⟩
  · intro node hin
    exact Ptr.list_remove_wf s.mem s.list s.nodes node hwf hin

/-- Witness for C20: six_calls from the created list.  After the three
inserts and the removal of the middle node the nodes are 48 and 16, linked to
each other, and the count is 2; after all six calls the list is empty. -/
theorem list_ops_keep_well_formed_witness :
    Ptr.Admissible Ptr.created six_calls ∧
      Except.map (fun s => (s.list, s.nodes, s.mem 48, s.mem 32, s.mem 16))
          (Ptr.run_ops Ptr.created (six_calls.take 4)) =
        Except.ok ({ head := 48, count := 2 }, [48, 16],
          some { data := 7, prev := NULL, next := 16 }, none,
          some { data := 5, prev := 48, next := NULL }) ∧
      Except.map (fun s => (s.list, s.nodes)) (Ptr.run_ops Ptr.created six_calls) =
        Except.ok (Ptr.list_create, []) ∧
      ∃ s, Ptr.run_ops Ptr.created six_calls = Except.ok s ∧
        s.list.count = s.nodes.length := by
  have hadm : Ptr.Admissible Ptr.created six_calls :=
    ⟨⟨by decide, by decide, rfl⟩, ⟨by decide, by decide, rfl⟩,
      ⟨by decide, by decide, rfl⟩,
      (by show (32 : Nat) ∈ ([48, 32, 16] : List Nat); decide),
      (by show (48 : Nat) ∈ ([48, 16] : List Nat); decide),
      (by show (16 : Nat) ∈ ([16] : List Nat); decide), trivial⟩
  refine ⟨hadm, rfl, rfl, ?_⟩
  obtain ⟨s, h1, _, _, h2, _⟩ := list_ops_keep_well_formed (fun _ => none) six_calls hadm
  exact ⟨s, h1, h2⟩

end Chan
